import Mathlib

/-!
# Verification of the MonkeyOCR biographical-record pipeline

Shallow embedding of the name-extraction / portrait-association /
reconciliation scripts under `src/image_name_extraction/`.  Python strings
are modelled as `List Char`; `None`/`NaN` cells are modelled as `Option`.
Regex searches used by the code are small fixed patterns; each one is
embedded as an explicit scanning function with the same first-match
semantics (documented at the definition).  Python's `\w` is modelled over
the ASCII range, which covers every input considered here.
-/

namespace MonkeyOCR

/-- ASCII whitespace recognised by Python's `str.strip` / `\s`
(space, tab, newline, carriage return, form feed, vertical tab). -/
def pySpace (c : Char) : Bool :=
  c = ' ' || c = '\t' || c = '\n' || c = '\x0d' || c = '\x0c' || c = '\x0b'

/-- Python word character (`\w`), ASCII fragment: letters, digits, underscore. -/
def wordChar (c : Char) : Bool :=
  c.isAlpha || c.isDigit || c = '_'

/-- `str.strip()`: drop leading and trailing whitespace. -/
def pyStrip (cs : List Char) : List Char :=
  ((cs.dropWhile pySpace).reverse.dropWhile pySpace).reverse

/-- `re.sub(r'[^\w\s]', '', name)`: remove every character that is neither
a word character nor whitespace (used to strip punctuation from names). -/
def stripPunct (cs : List Char) : List Char :=
  cs.filter (fun c => wordChar c || pySpace c)

/-- Case folding for `re.IGNORECASE` (ASCII). -/
def lowerAll (cs : List Char) : List Char := cs.map Char.toLower

/-- Case-insensitive prefix test. -/
def isPrefixCI (pat text : List Char) : Bool :=
  (lowerAll pat).isPrefixOf (lowerAll text)

/-- `re.search(re.escape(pat), text, re.IGNORECASE).start()`:
index of the first case-insensitive occurrence of `pat` in `text`
(`some 0` for the empty pattern, as in Python). -/
def findCI (pat : List Char) : List Char → Option Nat
  | [] => if pat = [] then some 0 else none
  | c :: rest =>
    if isPrefixCI pat (c :: rest) then some 0
    else (findCI pat rest).map (· + 1)

/-- `text[s:e]` for `0 ≤ s ≤ e` (Python slice on our index arithmetic). -/
def slice (cs : List Char) (s e : Nat) : List Char :=
  (cs.drop s).take (e - s)

/-! ## Name-Boundary Segmenter
`chunk_markdown_by_names` from `extract_all_names_Dolphin.py` (an identical
copy lives in `extract_portrait_names_Dolphin.py`).  The loop body for
index `i` sees `names[i]` and `names[i+1]`; we realise it by structural
recursion on the name list. -/

/-- Start position for one name: exact case-insensitive search first,
then the same search with punctuation stripped from the name. -/
def chunkStart (content name : List Char) : Option Nat :=
  (findCI name content).orElse (fun _ => findCI (stripPunct name) content)

/-- End position of the chunk that begins at `s` for `name`, given the
remaining names (`rest.head?` is `names[i+1]`).  The search for the next
name scans `markdown_content[start_pos + len(name):]`. -/
def chunkEnd (content name : List Char) (rest : List (List Char)) (s : Nat) : Nat :=
  match rest with
  | [] => content.length
  | next :: _ =>
    let tail := content.drop (s + name.length)
    match (findCI next tail).orElse (fun _ => findCI (stripPunct next) tail) with
    | some e => s + name.length + e
    | none => content.length

/-- `chunk_markdown_by_names(markdown_content, names_list)`. -/
def chunk_markdown_by_names (content : List Char) : List (List Char) → List (List Char)
  | [] => []
  | name :: rest =>
    match chunkStart content name with
    | some s => pyStrip (slice content s (chunkEnd content name rest s))
        :: chunk_markdown_by_names content rest
    | none => [] :: chunk_markdown_by_names content rest

/-! ## Consecutive-duplicate removal
`df = df[df['name'] != df['name'].shift()]`: row `i` is kept iff its name
differs from the name of row `i-1` of the *original* frame (the first row
compares against `NaN` and is always kept). -/

/-- One biographical-entry row as used by the dedup / chunking scripts. -/
structure Entry where
  name : List Char
  book_id : List Char
  deriving DecidableEq, Repr

/-- The shift-based filter; `prev` is the previous original row's name. -/
def removeConsecAux (prev : Option (List Char)) : List Entry → List Entry
  | [] => []
  | e :: es =>
    if some e.name = prev then removeConsecAux (some e.name) es
    else e :: removeConsecAux (some e.name) es

/-- `df[df['name'] != df['name'].shift()]`. -/
def removeConsecutiveDuplicates (rows : List Entry) : List Entry :=
  removeConsecAux none rows

/-- Helper for `collapseRuns`: drop elements equal to the last kept one. -/
def collapseRunsAux (lastKept : List Char) : List (List Char) → List (List Char)
  | [] => []
  | b :: bs =>
    if b = lastKept then collapseRunsAux lastKept bs
    else b :: collapseRunsAux b bs

/-- Collapse each maximal run of equal adjacent elements to its first
element (the spec's description of the dedup step). -/
def collapseRuns : List (List Char) → List (List Char)
  | [] => []
  | a :: rest => a :: collapseRunsAux a rest

/-- Segmenter as the specification sentence words it (refinement reference):
chunk `i` runs from the first case-insensitive occurrence of name `i` to
immediately before the first occurrence of name `i+1` located (strictly)
after that start position; the last chunk runs to end of text.  No
trimming, no search offset by the name's length. -/
def segmenterClaimChunks (content : List Char) : List (List Char) → List (List Char)
  | [] => []
  | name :: rest =>
    let s := (findCI name content).getD 0
    let e := match rest with
      | [] => content.length
      | next :: _ =>
        match findCI next (content.drop (s + 1)) with
        | some k => s + 1 + k
        | none => content.length
    slice content s e :: segmenterClaimChunks content rest

theorem chunk_markdown_length (content : List Char) :
    ∀ names, (chunk_markdown_by_names content names).length = names.length
  | [] => rfl
  | n :: ns => by
    unfold chunk_markdown_by_names
    cases chunkStart content n <;>
      simp [chunk_markdown_length content ns]

theorem head?_drop_get? (l : List (List Char)) (n : Nat) :
    (l.drop n).head? = l.get? n := by
  induction l generalizing n with
  | nil => simp
  | cons a t ih =>
    cases n with
    | zero => simp
    | succ m => simp [ih m]

theorem chunkEnd_drop (content name : List Char) (names : List (List Char)) (i s : Nat) :
    chunkEnd content name (names.drop (i + 1)) s =
      (match names.get? (i + 1) with
       | none => content.length
       | some next =>
         match (findCI next (content.drop (s + name.length))).orElse
             (fun _ => findCI (stripPunct next) (content.drop (s + name.length))) with
         | some k => s + name.length + k
         | none => content.length) := by
  rw [← head?_drop_get?]
  cases h : names.drop (i + 1) with
  | nil => simp [chunkEnd, h]
  | cons next t => simp [chunkEnd, h]

theorem chunk_get_eq (content : List Char) (names : List (List Char)) :
    ∀ (i : Nat) (hi : i < names.length),
      (∀ n ∈ names, (findCI n content).isSome) →
      ∃ s, findCI (names.get ⟨i, hi⟩) content = some s ∧
        (chunk_markdown_by_names content names).get
            ⟨i, by rw [chunk_markdown_length]; exact hi⟩ =
          pyStrip (slice content s
            (chunkEnd content (names.get ⟨i, hi⟩) (names.drop (i + 1)) s)) := by
  induction names with
  | nil => intro i hi; exact absurd hi (by simp)
  | cons n ns ih =>
    intro i hi hocc
    cases i with
    | zero =>
      have h0 : (findCI n content).isSome := hocc n (by simp)
      obtain ⟨s, hs⟩ := Option.isSome_iff_exists.mp h0
      have hcs : chunkStart content n = some s := by
        simp [chunkStart, hs, Option.orElse]
      refine ⟨s, hs, ?_⟩
      show (chunk_markdown_by_names content (n :: ns)).get ⟨0, _⟩ = _
      simp [chunk_markdown_by_names, hcs]
    | succ j =>
      have hj : j < ns.length := by simpa using hi
      obtain ⟨s, hs, he⟩ := ih j hj (fun m hm => hocc m (by simp [hm]))
      refine ⟨s, hs, ?_⟩
      show (chunk_markdown_by_names content (n :: ns)).get ⟨j + 1, _⟩ = _
      cases hstart : chunkStart content n <;>
        simpa [chunk_markdown_by_names, hstart] using he

/-- C3 counterexample: for text `"AB B"` and names `["AB", "B"]` (both occur
case-insensitively), the claim's reading — chunk 0 ends immediately before
the first occurrence of `"B"` strictly after chunk 0's start position, i.e.
the `B` inside `"AB"` — yields `"A"`, but the code searches only from
`start + len(name)` and trims, yielding `"AB"`.  The claim is false as
stated. -/
theorem C3_counterexample :
    (findCI "AB".data "AB B".data).isSome = true ∧
    (findCI "B".data "AB B".data).isSome = true ∧
    chunk_markdown_by_names "AB B".data ["AB".data, "B".data] =
      ["AB".data, "B B".data] ∧
    segmenterClaimChunks "AB B".data ["AB".data, "B".data] =
      ["A".data, "B B".data] ∧
    "AB".data ≠ "A".data := by
  refine ⟨by decide, by decide, by decide, by decide, by decide⟩

/-- C3 (amended): for names that all occur case-insensitively in the text,
the Segmenter returns exactly `k` chunks; chunk `i` starts at the first
case-insensitive occurrence `s` of name `i` and, after whitespace trimming,
ends immediately before the first occurrence of name `i+1` (or, failing
that, of its punctuation-stripped form) located at least `len(name i)`
characters beyond `s` — end of text when there is none; the last chunk
extends to the end of the text. -/
theorem C3_segmenter_chunk_boundaries (content : List Char)
    (names : List (List Char))
    (hocc : ∀ n ∈ names, (findCI n content).isSome) :
    (chunk_markdown_by_names content names).length = names.length ∧
    ∀ (i : Nat) (hi : i < names.length),
      ∃ s, findCI (names.get ⟨i, hi⟩) content = some s ∧
        (chunk_markdown_by_names content names).get
            ⟨i, by rw [chunk_markdown_length]; exact hi⟩ =
          pyStrip (slice content s
            (match names.get? (i + 1) with
             | none => content.length
             | some next =>
               match (findCI next
                     (content.drop (s + (names.get ⟨i, hi⟩).length))).orElse
                   (fun _ => findCI (stripPunct next)
                     (content.drop (s + (names.get ⟨i, hi⟩).length))) with
               | some k => s + (names.get ⟨i, hi⟩).length + k
               | none => content.length)) := by
  refine ⟨chunk_markdown_length content names, fun i hi => ?_⟩
  obtain ⟨s, hs, he⟩ := chunk_get_eq content names i hi hocc
  exact ⟨s, hs, by rw [he, chunkEnd_drop]⟩

/-- Witness for C3: instantiating the amended theorem on a 2-name text. -/
theorem C3_boundaries_witness :
    (chunk_markdown_by_names "A x B".data ["A".data, "B".data]).length = 2 := by
  have h := C3_segmenter_chunk_boundaries "A x B".data ["A".data, "B".data]
    (by decide)
  exact h.1

theorem removeConsecAux_map (a : List Char) (rows : List Entry) :
    (removeConsecAux (some a) rows).map Entry.name =
      collapseRunsAux a (rows.map Entry.name) := by
  induction rows generalizing a with
  | nil => rfl
  | cons e es ih =>
    by_cases h : e.name = a <;>
      simp [removeConsecAux, collapseRunsAux, h, ih]

/-- C6 (confirmed): the shift-based filter applied before chunking keeps,
within every run of consecutive duplicate names, exactly the first
occurrence; a name sequence `[A, A, B]` yields entries and chunks for
`[A, B]` only. -/
theorem C6_consecutive_duplicates_collapse :
    (∀ rows : List Entry,
      (removeConsecutiveDuplicates rows).map Entry.name =
        collapseRuns (rows.map Entry.name) ∧
      ∀ text : List Char,
        (chunk_markdown_by_names text
            ((removeConsecutiveDuplicates rows).map Entry.name)).length =
          (collapseRuns (rows.map Entry.name)).length) ∧
    removeConsecutiveDuplicates
        [⟨"A".data, "b1".data⟩, ⟨"A".data, "b1".data⟩, ⟨"B".data, "b1".data⟩] =
      [⟨"A".data, "b1".data⟩, ⟨"B".data, "b1".data⟩] ∧
    chunk_markdown_by_names "A x B y".data ["A".data, "B".data] =
      ["A x".data, "B y".data] := by
  refine ⟨fun rows => ?_, by decide, by decide⟩
  have hmap : (removeConsecutiveDuplicates rows).map Entry.name =
      collapseRuns (rows.map Entry.name) := by
    cases rows with
    | nil => rfl
    | cons e es =>
      simp [removeConsecutiveDuplicates, removeConsecAux, collapseRuns,
        removeConsecAux_map]
  exact ⟨hmap, fun text => by rw [chunk_markdown_length, hmap]⟩

theorem chunk_get_cases (content : List Char) (names : List (List Char)) :
    ∀ (i : Nat) (hi : i < names.length),
      (chunk_markdown_by_names content names).get
          ⟨i, by rw [chunk_markdown_length]; exact hi⟩ =
        (match chunkStart content (names.get ⟨i, hi⟩) with
         | some s =>
           pyStrip (slice content s
             (chunkEnd content (names.get ⟨i, hi⟩) (names.drop (i + 1)) s))
         | none => []) := by
  induction names with
  | nil => intro i hi; exact absurd hi (by simp)
  | cons n ns ih =>
    intro i hi
    cases i with
    | zero =>
      show (chunk_markdown_by_names content (n :: ns)).get ⟨0, _⟩ = _
      cases hcs : chunkStart content n <;>
        simp [chunk_markdown_by_names, hcs]
    | succ j =>
      have hj : j < ns.length := by simpa using hi
      have he := ih j hj
      show (chunk_markdown_by_names content (n :: ns)).get ⟨j + 1, _⟩ = _
      cases hstart : chunkStart content n <;>
        simpa [chunk_markdown_by_names, hstart] using he

/-- C7 (confirmed): when the exact case-insensitive search for a name
fails, the Segmenter retries with all punctuation stripped from the name;
when that also fails, the name's chunk is the empty string and the record
is retained (the chunk list still has one entry per name). -/
theorem C7_segmenter_fallback_and_empty_chunk (content : List Char)
    (names : List (List Char)) (i : Nat) (hi : i < names.length)
    (hmiss : findCI (names.get ⟨i, hi⟩) content = none) :
    (chunk_markdown_by_names content names).length = names.length ∧
    (chunk_markdown_by_names content names).get
        ⟨i, by rw [chunk_markdown_length]; exact hi⟩ =
      (match findCI (stripPunct (names.get ⟨i, hi⟩)) content with
       | some s =>
         pyStrip (slice content s
           (chunkEnd content (names.get ⟨i, hi⟩) (names.drop (i + 1)) s))
       | none => []) := by
  refine ⟨chunk_markdown_length content names, ?_⟩
  have h := chunk_get_cases content names i hi
  rwa [show chunkStart content (names.get ⟨i, hi⟩) =
      findCI (stripPunct (names.get ⟨i, hi⟩)) content by
    have hm : findCI names[i] content = none := hmiss
    simp [chunkStart, Option.orElse]
    rw [hm]] at h

/-- Witness for C7: the name `"X.Y"` occurs in `"hello"` neither exactly
nor with punctuation stripped, so its chunk is empty yet still present. -/
theorem C7_fallback_witness :
    (chunk_markdown_by_names "hello".data ["X.Y".data]).get
        ⟨0, by rw [chunk_markdown_length]; decide⟩ = [] := by
  have h := C7_segmenter_fallback_and_empty_chunk "hello".data ["X.Y".data]
    0 (by decide) (by decide)
  exact h.2.trans (by decide)

/-! ## JSON values and `json.loads`
Model of Python's strict JSON decoder.  Numbers are kept as their
validated lexemes (the decoded float/int value never matters to the
scripts, only list/dict structure and equality of records).  Literal
control characters inside strings are rejected, exactly as in strict-mode
`json.loads`; `NaN`/`Infinity` constants are accepted as in Python.
Because `arr`/`obj` nest lists, the value type is a mutual inductive so
that equality stays decidable by derivation. -/

mutual
inductive Json where
  | null
  | bool (b : Bool)
  | num (lexeme : List Char)
  | str (s : List Char)
  | arr (elems : JsonItems)
  | obj (fields : JsonFields)
  deriving DecidableEq, Repr
inductive JsonItems where
  | nil
  | cons (hd : Json) (tl : JsonItems)
  deriving DecidableEq, Repr
inductive JsonFields where
  | nil
  | cons (key : List Char) (val : Json) (tl : JsonFields)
  deriving DecidableEq, Repr
end

/-- JSON inter-token whitespace accepted by `json.loads`. -/
def jsonWs (c : Char) : Bool :=
  c = ' ' || c = '\t' || c = '\n' || c = '\x0d'

def skipWs (cs : List Char) : List Char := cs.dropWhile jsonWs

def hexVal (c : Char) : Option Nat :=
  if c.isDigit then some (c.toNat - 48)
  else if 'a' ≤ c ∧ c ≤ 'f' then some (c.toNat - 87)
  else if 'A' ≤ c ∧ c ≤ 'F' then some (c.toNat - 55)
  else none

/-- String body after the opening quote: returns the decoded content and
the rest after the closing quote.  Unescaped control characters make the
parse fail (strict mode); lone `\\uXXXX` units are decoded without
surrogate pairing (no input considered here contains surrogates). -/
def parseStringBody : List Char → Option (List Char × List Char)
  | [] => none
  | '"' :: rest => some ([], rest)
  | '\\' :: 'u' :: a :: b :: c :: d :: rest =>
    match hexVal a, hexVal b, hexVal c, hexVal d with
    | some ha, some hb, some hc, some hd =>
      (parseStringBody rest).map
        (fun p => (Char.ofNat (ha * 4096 + hb * 256 + hc * 16 + hd) :: p.1, p.2))
    | _, _, _, _ => none
  | '\\' :: e :: rest =>
    let dec : Option Char :=
      if e = '"' then some '"'
      else if e = '\\' then some '\\'
      else if e = '/' then some '/'
      else if e = 'b' then some '\x08'
      else if e = 'f' then some '\x0c'
      else if e = 'n' then some '\n'
      else if e = 'r' then some '\x0d'
      else if e = 't' then some '\t'
      else none
    match dec with
    | some d => (parseStringBody rest).map (fun p => (d :: p.1, p.2))
    | none => none
  | c :: rest =>
    if c.toNat < 32 then none
    else (parseStringBody rest).map (fun p => (c :: p.1, p.2))

/-- Number lexeme per the decoder's `NUMBER_RE`:
`-?(0|[1-9]\d*)(\.\d+)?([eE][-+]?\d+)?`; a fraction/exponent that does not
match completely is simply not consumed. -/
def parseNumberLex (cs : List Char) : Option (List Char × List Char) :=
  let sign : List Char × List Char :=
    match cs with
    | '-' :: r => (['-'], r)
    | _ => ([], cs)
  let ds := sign.2.takeWhile Char.isDigit
  let r1 := sign.2.dropWhile Char.isDigit
  if ds = [] then none
  else if 1 < ds.length ∧ ds.head? = some '0' then none
  else
    let frac : List Char × List Char :=
      match r1 with
      | '.' :: rr =>
        let fs := rr.takeWhile Char.isDigit
        if fs = [] then ([], r1) else ('.' :: fs, rr.dropWhile Char.isDigit)
      | _ => ([], r1)
    let ex : List Char × List Char :=
      match frac.2 with
      | e :: rr =>
        if e = 'e' ∨ e = 'E' then
          let sg : List Char × List Char :=
            match rr with
            | '+' :: t => (['+'], t)
            | '-' :: t => (['-'], t)
            | _ => ([], rr)
          let es := sg.2.takeWhile Char.isDigit
          if es = [] then ([], frac.2)
          else (e :: (sg.1 ++ es), sg.2.dropWhile Char.isDigit)
        else ([], frac.2)
      | [] => ([], frac.2)
    some (sign.1 ++ ds ++ frac.1 ++ ex.1, ex.2)

mutual
def parseValueF : Nat → List Char → Option (Json × List Char)
  | 0, _ => none
  | fuel + 1, cs =>
    match skipWs cs with
    | '\x7b' :: r => parseObjBodyF fuel (skipWs r)
    | '[' :: r => parseArrBodyF fuel (skipWs r)
    | '"' :: r =>
      match parseStringBody r with
      | some p => some (Json.str p.1, p.2)
      | none => none
    | rest =>
      if "true".data.isPrefixOf rest then some (Json.bool true, rest.drop 4)
      else if "false".data.isPrefixOf rest then some (Json.bool false, rest.drop 5)
      else if "null".data.isPrefixOf rest then some (Json.null, rest.drop 4)
      else if "NaN".data.isPrefixOf rest then some (Json.num "NaN".data, rest.drop 3)
      else if "Infinity".data.isPrefixOf rest then
        some (Json.num "Infinity".data, rest.drop 8)
      else if "-Infinity".data.isPrefixOf rest then
        some (Json.num "-Infinity".data, rest.drop 9)
      else
        match parseNumberLex rest with
        | some p => some (Json.num p.1, p.2)
        | none => none

def parseArrBodyF : Nat → List Char → Option (Json × List Char)
  | 0, _ => none
  | fuel + 1, cs =>
    match cs with
    | ']' :: r => some (Json.arr JsonItems.nil, r)
    | _ =>
      match parseArrItemsF fuel cs with
      | some p => some (Json.arr p.1, p.2)
      | none => none

def parseArrItemsF : Nat → List Char → Option (JsonItems × List Char)
  | 0, _ => none
  | fuel + 1, cs =>
    match parseValueF fuel cs with
    | none => none
    | some (v, rest) =>
      match skipWs rest with
      | ',' :: r2 =>
        match parseArrItemsF fuel r2 with
        | some p => some (JsonItems.cons v p.1, p.2)
        | none => none
      | ']' :: r2 => some (JsonItems.cons v JsonItems.nil, r2)
      | _ => none

def parseObjBodyF : Nat → List Char → Option (Json × List Char)
  | 0, _ => none
  | fuel + 1, cs =>
    match cs with
    | '\x7d' :: r => some (Json.obj JsonFields.nil, r)
    | _ =>
      match parseMembersF fuel cs with
      | some p => some (Json.obj p.1, p.2)
      | none => none

def parseMembersF : Nat → List Char → Option (JsonFields × List Char)
  | 0, _ => none
  | fuel + 1, cs =>
    match cs with
    | '"' :: r =>
      match parseStringBody r with
      | none => none
      | some (k, r2) =>
        match skipWs r2 with
        | ':' :: r3 =>
          match parseValueF fuel r3 with
          | none => none
          | some (v, r4) =>
            match skipWs r4 with
            | ',' :: r5 =>
              match parseMembersF fuel (skipWs r5) with
              | some p => some (JsonFields.cons k v p.1, p.2)
              | none => none
            | '\x7d' :: r5 => some (JsonFields.cons k v JsonFields.nil, r5)
            | _ => none
        | _ => none
    | _ => none
end

/-- `json.loads`: parse one JSON value with nothing but whitespace after
it.  The fuel `length + 2` dominates the recursion depth, which consumes
at least one character per level. -/
def jsonParse (cs : List Char) : Option Json :=
  match parseValueF (cs.length + 2) cs with
  | some (v, rest) => if skipWs rest = [] then some v else none
  | none => none

/-- Strict parse accepting only a JSON array (`isinstance(data, list)`). -/
def strictArrParse (cs : List Char) : Option JsonItems :=
  match jsonParse cs with
  | some (Json.arr items) => some items
  | _ => none

/-! ## Robust Response Parser
`extract_json_from_response` / `fix_json_string` from
`azure_portrait_associator_Dolphin.py`.  The three regex patterns tried by
the code, in its order, are
`\[(?:[^[\]]*|\[[^\]]*\])*\]` (one-level-nested array in the raw text),
then <code fence>`json (\[.*?\]) `<code fence> and the generic-fence
variant, with `re.DOTALL`.  Each is embedded as a scanner with Python's
leftmost-match, non-overlapping `findall` semantics. -/

/-- Body of a `\[(?:[^[\]]*|\[[^\]]*\])*\]` match after the opening `[`.
At top level (`inSub = false`) a `]` ends the match and a `[` opens a
one-level group; inside a group every character except `]` is consumed.
Returns the matched characters (closing bracket included) and the rest. -/
def p1Body : Bool → List Char → Option (List Char × List Char)
  | _, [] => none
  | false, ']' :: r => some ([']'], r)
  | false, '[' :: r => (p1Body true r).map (fun p => ('[' :: p.1, p.2))
  | false, c :: r => (p1Body false r).map (fun p => (c :: p.1, p.2))
  | true, ']' :: r => (p1Body false r).map (fun p => (']' :: p.1, p.2))
  | true, c :: r => (p1Body true r).map (fun p => (c :: p.1, p.2))

def p1MatchAt : List Char → Option (List Char × List Char)
  | '[' :: r => (p1Body false r).map (fun p => ('[' :: p.1, p.2))
  | _ => none

/-- `re.findall` for the array pattern: leftmost matches, scanning resumes
after each match.  A successful match consumes at least two characters, so
`length` fuel suffices. -/
def p1FindAllF : Nat → List Char → List (List Char)
  | 0, _ => []
  | fuel + 1, cs =>
    match cs with
    | [] => []
    | _ :: r =>
      match p1MatchAt cs with
      | some (m, rest) => m :: p1FindAllF fuel rest
      | none => p1FindAllF fuel r

def p1FindAll (cs : List Char) : List (List Char) := p1FindAllF cs.length cs

/-- After a candidate closing `]` of a fenced block: `\s*` then three
backticks. -/
def closesFence (cs : List Char) : Bool :=
  "\x60\x60\x60".data.isPrefixOf (cs.dropWhile pySpace)

/-- Rest of the text after the fence closing that `closesFence` found. -/
def afterFence (cs : List Char) : List Char :=
  (cs.dropWhile pySpace).drop 3

/-- Lazy `.*?\]` with `re.DOTALL`: content up to the first `]` that is
followed by a fence closing.  Returns (captured tail including that `]`,
rest after the whole match). -/
def fencedCapture : List Char → Option (List Char × List Char)
  | [] => none
  | ']' :: r =>
    if closesFence r then some ([']'], afterFence r)
    else (fencedCapture r).map (fun p => (']' :: p.1, p.2))
  | c :: r => (fencedCapture r).map (fun p => (c :: p.1, p.2))

/-- Match of a whole fenced pattern `tag \s* (\[.*?\]) \s* fence-close`
starting exactly at `cs`; returns (group 1, rest after the match). -/
def fencedMatchAt (tag cs : List Char) : Option (List Char × List Char) :=
  if tag.isPrefixOf cs then
    match (cs.drop tag.length).dropWhile pySpace with
    | '[' :: r => (fencedCapture r).map (fun p => ('[' :: p.1, p.2))
    | _ => none
  else none

def fencedFindAllF (tag : List Char) : Nat → List Char → List (List Char)
  | 0, _ => []
  | fuel + 1, cs =>
    match cs with
    | [] => []
    | _ :: r =>
      match fencedMatchAt tag cs with
      | some (m, rest) => m :: fencedFindAllF tag fuel rest
      | none => fencedFindAllF tag fuel r

def fencedFindAll (tag cs : List Char) : List (List Char) :=
  fencedFindAllF tag cs.length cs

/-- Index of the last occurrence of `c`. -/
def lastIdxOf (c : Char) (cs : List Char) : Option Nat :=
  (cs.reverse.findIdx? (· = c)).map (fun k => cs.length - 1 - k)

/-- `re.search(r'\[.*\]', response_text, re.DOTALL)`: greedy, so the
match runs from the first `[` to the last `]` anywhere after it. -/
def bracketSpan (s : List Char) : Option (List Char) :=
  match s.findIdx? (· = '[') with
  | none => none
  | some i =>
    let rest := s.drop (i + 1)
    match lastIdxOf ']' rest with
    | none => none
    | some j => some ('[' :: rest.take (j + 1))

/-- Replacement body of `fix_json_string`: escape newlines and carriage
returns in the matched value text. -/
def escCR : List Char → List Char
  | [] => []
  | '\x0d' :: r => '\\' :: 'r' :: escCR r
  | '\n' :: r => '\\' :: 'n' :: escCR r
  | c :: r => c :: escCR r

/-- `(.*?)(?=")` without `re.DOTALL`: the characters up to the first `"`,
provided no literal newline comes first (`.` cannot cross `\n`), with the
rest left standing at that quote. -/
def valueRun : List Char → Option (List Char × List Char)
  | [] => none
  | '"' :: r => some ([], '"' :: r)
  | '\n' :: _ => none
  | c :: r => (valueRun r).map (fun p => (c :: p.1, p.2))

/-- Slide a 3-character look-behind window over consumed characters. -/
def shift3 (p3 p2 p1 : Char) : List Char → Char × Char × Char
  | [] => (p3, p2, p1)
  | c :: r => shift3 p2 p1 c r

/-- Scanner for `re.sub(r'(?<=: ")(.*?)(?=")', escape, json_str)`:
at every position whose three preceding original characters are `: "`,
the lazy group matches up to the first following `"` unless a literal
newline intervenes; matched text has its `\r`/`\n` escaped (a `\n` can in
fact never be inside a match).  An empty match is replaced by nothing and
scanning advances one character, as in `re.sub`. -/
def fixScanF : Nat → Char → Char → Char → List Char → List Char
  | 0, _, _, _, cs => cs
  | fuel + 1, p3, p2, p1, cs =>
    match cs with
    | [] => []
    | c :: r =>
      if p3 = ':' ∧ p2 = ' ' ∧ p1 = '"' then
        match valueRun (c :: r) with
        | some (run, rest) =>
          if run = [] then c :: fixScanF fuel p2 p1 c r
          else
            match shift3 p3 p2 p1 run with
            | (q3, q2, q1) => escCR run ++ fixScanF fuel q3 q2 q1 rest
        | none => c :: fixScanF fuel p2 p1 c r
      else c :: fixScanF fuel p2 p1 c r

/-- `fix_json_string(json_str)`: the single repair substitution. -/
def fix_json_string (cs : List Char) : List Char :=
  fixScanF cs.length '\x00' '\x00' '\x00' cs

/-- First `some` in a list of options (the `for`-loop over matches,
returning on the first parse that yields a list). -/
def firstSome {A : Type} : List (Option A) → Option A
  | [] => none
  | o :: os =>
    match o with
    | some a => some a
    | none => firstSome os

/-- `match.strip()` then `json.loads`, keeping only list results. -/
def tryParseList (m : List Char) : Option JsonItems :=
  strictArrParse (pyStrip m)

/-- All regex candidates in the code's `json_patterns` order: the raw
nested-array pattern, then json-tagged fences, then generic fences. -/
def allPatternMatches (s : List Char) : List (List Char) :=
  p1FindAll s ++ fencedFindAll "\x60\x60\x60json".data s ++
    fencedFindAll "\x60\x60\x60".data s

/-- `extract_json_from_response(response_text)`. -/
def extract_json_from_response (s : List Char) : JsonItems :=
  match firstSome ((allPatternMatches s).map tryParseList) with
  | some l => l
  | none =>
    match bracketSpan s with
    | some sp =>
      match strictArrParse (fix_json_string sp) with
      | some l => l
      | none => JsonItems.nil
    | none => JsonItems.nil

/-- Parser with the layer order the specification claims (refinement
reference): fenced code blocks first (json-tagged, then generic), then the
raw-text array pattern, then the repair pass. -/
def claimOrderExtract (s : List Char) : JsonItems :=
  match firstSome ((fencedFindAll "\x60\x60\x60json".data s ++
      fencedFindAll "\x60\x60\x60".data s).map tryParseList) with
  | some l => l
  | none =>
    match firstSome ((p1FindAll s).map tryParseList) with
    | some l => l
    | none =>
      match bracketSpan s with
      | some sp =>
        match strictArrParse (fix_json_string sp) with
        | some l => l
        | none => JsonItems.nil
      | none => JsonItems.nil

theorem firstSome_append {A : Type} (a b : List (Option A)) :
    firstSome (a ++ b) =
      (match firstSome a with
       | some x => some x
       | none => firstSome b) := by
  induction a with
  | nil => simp [firstSome]
  | cons o os ih => cases o <;> simp [firstSome, ih]

theorem firstSome_map_some {A B : Type} (f : A → Option B) :
    ∀ (xs : List A) (b : B),
      firstSome (xs.map f) = some b → ∃ x ∈ xs, f x = some b := by
  intro xs
  induction xs with
  | nil => intro b h; simp [firstSome] at h
  | cons x xs ih =>
    intro b h
    cases hf : f x with
    | some v =>
      refine ⟨x, by simp, ?_⟩
      simp only [List.map_cons, firstSome, hf] at h
      rw [hf, h]
    | none =>
      simp only [List.map_cons, firstSome, hf] at h
      obtain ⟨y, hy, hfy⟩ := ih b h
      exact ⟨y, by simp [hy], hfy⟩

theorem strictArrParse_eq_some (c : List Char) (l : JsonItems) :
    strictArrParse c = some l ↔ jsonParse c = some (Json.arr l) := by
  unfold strictArrParse
  cases h : jsonParse c with
  | none => simp
  | some v => cases v <;> simp

/-- C4 (confirmed): the Robust Response Parser's result is either the
empty list or the exact element list of one candidate substring whose
entire text strictly parses as a JSON array (so no record is emitted from
an array that fails to parse in full), and when no candidate — stripped
pattern matches and the repaired greedy bracket span alike — parses as an
array, the result is the empty list.  As a total function it never
throws. -/
theorem C4_parser_no_partial_apply (s : List Char) :
    ((∃ c ∈ (allPatternMatches s).map pyStrip ++
          ((bracketSpan s).map fix_json_string).toList,
        jsonParse c = some (Json.arr (extract_json_from_response s))) ∨
      extract_json_from_response s = JsonItems.nil) ∧
    ((∀ c ∈ (allPatternMatches s).map pyStrip ++
          ((bracketSpan s).map fix_json_string).toList,
        strictArrParse c = none) →
      extract_json_from_response s = JsonItems.nil) := by
  cases h1 : firstSome ((allPatternMatches s).map tryParseList) with
  | some l =>
    obtain ⟨x, hx, hfx⟩ := firstSome_map_some tryParseList (allPatternMatches s) l h1
    have hext : extract_json_from_response s = l := by
      simp [extract_json_from_response, h1]
    constructor
    · left
      refine ⟨pyStrip x, List.mem_append_left _ (List.mem_map.mpr ⟨x, hx, rfl⟩), ?_⟩
      rw [hext]
      exact (strictArrParse_eq_some (pyStrip x) l).mp hfx
    · intro hall
      have := hall (pyStrip x)
        (List.mem_append_left _ (List.mem_map.mpr ⟨x, hx, rfl⟩))
      rw [show tryParseList x = strictArrParse (pyStrip x) from rfl, this] at hfx
      exact absurd hfx (by simp)
  | none =>
    cases h2 : bracketSpan s with
    | none =>
      have hext : extract_json_from_response s = JsonItems.nil := by
        simp [extract_json_from_response, h1, h2]
      exact ⟨Or.inr hext, fun _ => hext⟩
    | some sp =>
      cases h3 : strictArrParse (fix_json_string sp) with
      | some l =>
        have hext : extract_json_from_response s = l := by
          simp [extract_json_from_response, h1, h2, h3]
        constructor
        · left
          refine ⟨fix_json_string sp,
            List.mem_append_right _ (by simp [h2]), ?_⟩
          rw [hext]
          exact (strictArrParse_eq_some (fix_json_string sp) l).mp h3
        · intro hall
          have := hall (fix_json_string sp)
            (List.mem_append_right _ (by simp [h2]))
          rw [this] at h3
          exact absurd h3 (by simp)
      | none =>
        have hext : extract_json_from_response s = JsonItems.nil := by
          simp [extract_json_from_response, h1, h2, h3]
        exact ⟨Or.inr hext, fun _ => hext⟩

/-- Witness for C4: text with no bracket structure at all yields the
empty list. -/
theorem C4_no_structure_witness :
    extract_json_from_response "no json at all".data = JsonItems.nil := by
  have h := C4_parser_no_partial_apply "no json at all".data
  exact h.2 (by decide)

/-- C5 counterexample: on a response holding a parsable raw array `[1]`
before a json-fenced block `[2]`, the code returns `[1]` — the raw
bracket pattern is tried first — while the claimed order (fenced blocks
first) would return `[2]`, even though the fenced block is present and
strictly parsable. -/
theorem C5_counterexample :
    extract_json_from_response
        "x [1] x\n\x60\x60\x60json\n[2]\n\x60\x60\x60".data =
      JsonItems.cons (Json.num "1".data) JsonItems.nil ∧
    claimOrderExtract "x [1] x\n\x60\x60\x60json\n[2]\n\x60\x60\x60".data =
      JsonItems.cons (Json.num "2".data) JsonItems.nil ∧
    fencedFindAll "\x60\x60\x60json".data
        "x [1] x\n\x60\x60\x60json\n[2]\n\x60\x60\x60".data = ["[2]".data] ∧
    tryParseList "[2]".data =
      some (JsonItems.cons (Json.num "2".data) JsonItems.nil) ∧
    JsonItems.cons (Json.num "1".data) JsonItems.nil ≠
      JsonItems.cons (Json.num "2".data) JsonItems.nil := by
  exact ⟨by decide, by decide, by decide, by decide, by decide⟩

/-- C5 (amended): the extraction layers are attempted in this order, first
success winning: (1) the balanced bracket-delimited array pattern over the
raw text, then (2) JSON-tagged fenced blocks, then (3) generic fenced
blocks — each stripped and strictly parsed — then (4) one repair
substitution on the greedy first-`[`-to-last-`]` span followed by a single
re-parse.  The repair escapes carriage returns inside string values that
follow a colon-quote; a literal newline in the value prevents the
substitution from matching at all, so newlines are left unescaped. -/
theorem C5_layer_order (s : List Char) :
    extract_json_from_response s =
      (match firstSome ((p1FindAll s).map tryParseList) with
       | some l => l
       | none =>
         match firstSome
             ((fencedFindAll "\x60\x60\x60json".data s).map tryParseList) with
         | some l => l
         | none =>
           match firstSome
               ((fencedFindAll "\x60\x60\x60".data s).map tryParseList) with
           | some l => l
           | none =>
             match bracketSpan s with
             | some sp =>
               match strictArrParse (fix_json_string sp) with
               | some l => l
               | none => JsonItems.nil
             | none => JsonItems.nil) ∧
    fix_json_string "\x7b\"a\": \"x\ny\"\x7d".data =
      "\x7b\"a\": \"x\ny\"\x7d".data ∧
    fix_json_string "\x7b\"a\": \"x\ry\"\x7d".data =
      "\x7b\"a\": \"x\\ry\"\x7d".data := by
  refine ⟨?_, by decide, by decide⟩
  show (match firstSome ((allPatternMatches s).map tryParseList) with
        | some l => l
        | none =>
          match bracketSpan s with
          | some sp =>
            match strictArrParse (fix_json_string sp) with
            | some l => l
            | none => JsonItems.nil
          | none => JsonItems.nil) = _
  rw [show (allPatternMatches s).map tryParseList =
      (p1FindAll s).map tryParseList ++
        ((fencedFindAll "\x60\x60\x60json".data s).map tryParseList ++
          (fencedFindAll "\x60\x60\x60".data s).map tryParseList) by
    simp [allPatternMatches]]
  rw [firstSome_append, firstSome_append]
  cases firstSome ((p1FindAll s).map tryParseList) with
  | some l => rfl
  | none =>
    cases firstSome ((fencedFindAll "\x60\x60\x60json".data s).map tryParseList) with
    | some l => rfl
    | none =>
      cases firstSome ((fencedFindAll "\x60\x60\x60".data s).map tryParseList) <;> rfl

/-! ## Book Grouper
`get_page_number` / `get_book_id` / `find_markdown_files` from
`azure_portrait_associator_Dolphin.py`. -/

/-- `md_filename.replace('.md', '')` (removes every occurrence). -/
def stripMdAll : List Char → List Char
  | '.' :: 'm' :: 'd' :: r => stripMdAll r
  | c :: r => c :: stripMdAll r
  | [] => []

def digitsToNat (ds : List Char) : Nat :=
  ds.foldl (fun a c => a * 10 + (c.toNat - 48)) 0

/-- `re.search(r'_(\d+)$', stem)` succeeds: the stem ends in a nonempty
digit run immediately preceded by an underscore. -/
def hasTrailingPageNum (stem : List Char) : Bool :=
  decide (stem.reverse.takeWhile Char.isDigit ≠ []) &&
    decide ((stem.reverse.drop
      (stem.reverse.takeWhile Char.isDigit).length).head? = some '_')

/-- `get_page_number(md_filename)`: the trailing `_digits` token as an
integer, `0` when the pattern does not match. -/
def get_page_number (name : List Char) : Nat :=
  if (stripMdAll name).reverse.takeWhile Char.isDigit = [] then 0
  else if ((stripMdAll name).reverse.drop
      ((stripMdAll name).reverse.takeWhile Char.isDigit).length).head? =
      some '_' then
    digitsToNat ((stripMdAll name).reverse.takeWhile Char.isDigit).reverse
  else 0

/-- Python `str.split('_')`. -/
def splitU : List Char → List (List Char)
  | [] => [[]]
  | '_' :: r => [] :: splitU r
  | c :: r =>
    match splitU r with
    | p :: ps => (c :: p) :: ps
    | [] => [[c]]

/-- `'_'.join(parts)`. -/
def joinU : List (List Char) → List Char
  | [] => []
  | [p] => p
  | p :: ps => p ++ '_' :: joinU ps

/-- `get_book_id(md_filename)`: everything before the final
underscore-separated part when the stem has at least four parts, the
whole stem otherwise. -/
def get_book_id (name : List Char) : List Char :=
  let stem := stripMdAll name
  let parts := splitU stem
  if 4 ≤ parts.length then joinU parts.dropLast else stem

/-- Append `v` to the group keyed `k`, creating the group at the end when
absent (`defaultdict(list)` insertion order). -/
def groupInsert (acc : List (List Char × List (List Char))) (k v : List Char) :
    List (List Char × List (List Char)) :=
  match acc with
  | [] => [(k, [v])]
  | g :: rest =>
    if g.1 = k then (g.1, g.2 ++ [v]) :: rest
    else g :: groupInsert rest k v

/-- Stable insertion for the per-book page sort. -/
def insertByPage (v : List Char) : List (List Char) → List (List Char)
  | [] => [v]
  | w :: ws =>
    if get_page_number v ≤ get_page_number w then v :: w :: ws
    else w :: insertByPage v ws

/-- Stable sort by page number (`files.sort(key=get_page_number)`). -/
def sortByPageNum (vs : List (List Char)) : List (List Char) :=
  vs.foldr insertByPage []

/-- `find_markdown_files(page_dir)` on the list of `.md` filenames found:
group by book id in first-encounter order, then sort each group's files
by page number. -/
def find_markdown_files (names : List (List Char)) :
    List (List Char × List (List Char)) :=
  (names.foldl (fun acc n => groupInsert acc (get_book_id n) n) []).map
    (fun g => (g.1, sortByPageNum g.2))

theorem mem_insertByPage (x v : List Char) (l : List (List Char)) :
    x ∈ insertByPage v l ↔ x = v ∨ x ∈ l := by
  induction l with
  | nil => simp [insertByPage]
  | cons w ws ih =>
    by_cases h : get_page_number v ≤ get_page_number w
    · simp [insertByPage, h, ih]
    · simp [insertByPage, h, ih]
      tauto

theorem mem_sortByPageNum (x : List Char) (vs : List (List Char)) :
    x ∈ sortByPageNum vs ↔ x ∈ vs := by
  induction vs with
  | nil => simp [sortByPageNum]
  | cons v rest ih =>
    show x ∈ insertByPage v (sortByPageNum rest) ↔ _
    rw [mem_insertByPage]
    simp [ih]

theorem groupInsert_mem_new (acc : List (List Char × List (List Char)))
    (k v : List Char) :
    ∃ g ∈ groupInsert acc k v, g.1 = k ∧ v ∈ g.2 := by
  induction acc with
  | nil => exact ⟨(k, [v]), by simp [groupInsert]⟩
  | cons g rest ih =>
    by_cases h : g.1 = k
    · exact ⟨(g.1, g.2 ++ [v]), by simp [groupInsert, h]⟩
    · obtain ⟨g2, hg2, hk, hv⟩ := ih
      exact ⟨g2, by simp [groupInsert, h, hg2], hk, hv⟩

theorem groupInsert_mem_old (acc : List (List Char × List (List Char)))
    (k v : List Char) (K x : List Char)
    (h : ∃ g ∈ acc, g.1 = K ∧ x ∈ g.2) :
    ∃ g ∈ groupInsert acc k v, g.1 = K ∧ x ∈ g.2 := by
  induction acc with
  | nil => simp at h
  | cons g rest ih =>
    obtain ⟨g0, hg0, hk, hx⟩ := h
    by_cases he : g.1 = k
    · rcases List.mem_cons.mp hg0 with rfl | hmem
      · exact ⟨(g0.1, g0.2 ++ [v]), by simp [groupInsert, he], hk, by simp [hx]⟩
      · exact ⟨g0, by simp [groupInsert, he, hmem], hk, hx⟩
    · rcases List.mem_cons.mp hg0 with rfl | hmem
      · exact ⟨g0, by simp [groupInsert, he], hk, hx⟩
      · obtain ⟨g2, hg2, hk2, hx2⟩ := ih ⟨g0, hmem, hk, hx⟩
        exact ⟨g2, by simp [groupInsert, he, hg2], hk2, hx2⟩

theorem foldl_groupInsert_preserves (names : List (List Char))
    (K x : List Char) :
    ∀ acc, (∃ g ∈ acc, g.1 = K ∧ x ∈ g.2) →
      ∃ g ∈ names.foldl (fun a n => groupInsert a (get_book_id n) n) acc,
        g.1 = K ∧ x ∈ g.2 := by
  induction names with
  | nil => intro acc h; exact h
  | cons n rest ih =>
    intro acc h
    exact ih _ (groupInsert_mem_old acc (get_book_id n) n K x h)

theorem foldl_groupInsert_mem (names : List (List Char)) (n : List Char)
    (hn : n ∈ names) :
    ∀ acc, ∃ g ∈ names.foldl (fun a m => groupInsert a (get_book_id m) m) acc,
      g.1 = get_book_id n ∧ n ∈ g.2 := by
  induction names with
  | nil => simp at hn
  | cons m rest ih =>
    intro acc
    rcases List.mem_cons.mp hn with rfl | hmem
    · exact foldl_groupInsert_preserves rest (get_book_id n) n _
        (groupInsert_mem_new acc (get_book_id n) n)
    · exact ih hmem _

/-- C9 counterexample: the filename `"notes.md"` has no
underscore-delimited numeric final token, yet the Book Grouper does not
skip it: it is assigned book id `"notes"` and page number `0` and appears
in the grouped output. -/
theorem C9_counterexample :
    get_book_id "notes.md".data = "notes".data ∧
    get_page_number "notes.md".data = 0 ∧
    find_markdown_files ["notes.md".data] =
      [("notes".data, ["notes.md".data])] := by
  exact ⟨by decide, by decide, by decide⟩

/-- C9 (amended): a filename that does not match the expected pattern is
*not* skipped: every input filename is grouped under its derived book id
(the whole stem when it has fewer than four underscore-separated parts),
with page number defaulting to `0` when no trailing `_digits` token
exists; the mismatch is never fatal. -/
theorem C9_unmatched_filenames_kept (names : List (List Char))
    (n : List Char) (hn : n ∈ names) :
    (∃ g ∈ find_markdown_files names, g.1 = get_book_id n ∧ n ∈ g.2) ∧
    (∀ m : List Char, ¬ hasTrailingPageNum (stripMdAll m) →
      get_page_number m = 0) := by
  constructor
  · obtain ⟨g, hg, hk, hv⟩ := foldl_groupInsert_mem names n hn []
    refine ⟨(g.1, sortByPageNum g.2), ?_, hk, ?_⟩
    · exact List.mem_map.mpr ⟨g, hg, rfl⟩
    · exact (mem_sortByPageNum n g.2).mpr hv
  · intro m hm
    rw [hasTrailingPageNum] at hm
    rw [get_page_number]
    by_cases hds : (stripMdAll m).reverse.takeWhile Char.isDigit = []
    · simp [hds]
    · rw [if_neg hds]
      by_cases hhd : ((stripMdAll m).reverse.drop
          ((stripMdAll m).reverse.takeWhile Char.isDigit).length).head? =
          some '_'
      · exact absurd (by simp [hds, hhd]) hm
      · rw [if_neg hhd]

/-- Witness for C9: a mixed listing with one well-formed and one
pattern-violating filename keeps both. -/
theorem C9_kept_witness :
    ∃ g ∈ find_markdown_files ["digibok_11_22_0003.md".data, "notes.md".data],
      g.1 = get_book_id "notes.md".data ∧ "notes.md".data ∈ g.2 := by
  exact (C9_unmatched_filenames_kept
    ["digibok_11_22_0003.md".data, "notes.md".data] "notes.md".data
    (by simp)).1

/-! ## Page loading and `process_book`
`find_image_files`, `load_page_content`, `analyze_book_portraits` and
`process_book` from `azure_portrait_associator_Dolphin.py`.  The Azure
client is the external oracle (prompt in, text out) and is passed as a
function argument `respond`; file IO is represented by passing each page's
filename, content, and the figure-directory listing.  Result dictionaries
are modelled by `BookResult` with the fields the claims touch (summary
counts and timestamps are omitted). -/

/-- One candidate position of the lazy scan: the literal `](figures/`
followed by the capture `([^)]+\.png)` and `)` — the capture is the
maximal `)`-free run, which must end in `.png` with at least one
character before it. -/
def imgCapAt (cs : List Char) : Option (List Char × List Char) :=
  if "](figures/".data.isPrefixOf cs then
    match (cs.drop 10).dropWhile (· ≠ ')') with
    | ')' :: r2 =>
      if 4 < ((cs.drop 10).takeWhile (· ≠ ')')).length ∧
          ".png".data.isSuffixOf ((cs.drop 10).takeWhile (· ≠ ')')) then
        some ((cs.drop 10).takeWhile (· ≠ ')'), r2)
      else none
    | _ => none
  else none

/-- Lazy `.*?` scan after `!\[`: try literal-plus-capture at each
position in order.  When the literal `](figures/` matches but the capture
fails, the engine backtracks into `.*?`, which consumes the `]` and can
reach a later `](figures/` occurrence — so the scan simply continues one
character further.  `.` cannot cross a newline. -/
def imgLabelScan : List Char → Option (List Char × List Char)
  | [] => none
  | c :: r =>
    match imgCapAt (c :: r) with
    | some p => some p
    | none => if c = '\n' then none else imgLabelScan r

/-- One match of `!\[.*?\]\(figures/([^)]+\.png)\)` starting exactly
here; returns (captured filename, rest after the match). -/
def imgRefMatchAt (cs : List Char) : Option (List Char × List Char) :=
  if "![".data.isPrefixOf cs then imgLabelScan (cs.drop 2) else none

def findImageRefsF : Nat → List Char → List (List Char)
  | 0, _ => []
  | fuel + 1, cs =>
    match cs with
    | [] => []
    | _ :: r =>
      match imgRefMatchAt cs with
      | some (cap, rest) => cap :: findImageRefsF fuel rest
      | none => findImageRefsF fuel r

/-- `re.findall(r'!\[.*?\]\(figures/([^)]+\.png)\)', content)`. -/
def findImageRefs (cs : List Char) : List (List Char) :=
  findImageRefsF cs.length cs

/-- `figures_dir.glob(f"{page_prefix}_figure_*.png")` membership test. -/
def globFigureMatch (stem fname : List Char) : Bool :=
  (stem ++ "_figure_".data).isPrefixOf fname &&
    ".png".data.isSuffixOf (fname.drop (stem.length + 8))

/-- Lexicographic (code-point) string order, as Python `sorted`. -/
def lexLe : List Char → List Char → Bool
  | [], _ => true
  | _ :: _, [] => false
  | a :: as_, b :: bs =>
    if a = b then lexLe as_ bs else decide (a.toNat < b.toNat)

def insertLex (v : List Char) : List (List Char) → List (List Char)
  | [] => [v]
  | w :: ws => if lexLe v w then v :: w :: ws else w :: insertLex v ws

def sortLex (vs : List (List Char)) : List (List Char) :=
  vs.foldr insertLex []

/-- `find_image_files(markdown_dir, page_filename, content)`: image
references found in the markdown plus actual `stem_figure_*.png` files not
already listed, sorted. -/
def find_image_files (content page_filename : List Char)
    (figuresDir : List (List Char)) : List (List Char) :=
  let refs := findImageRefs content
  sortLex (refs ++ figuresDir.filter
    (fun f => globFigureMatch (stripMdAll page_filename) f && decide (f ∉ refs)))

/-- `md_file.stem`: strip one trailing `.md` extension. -/
def stemOf (fname : List Char) : List Char :=
  if ".md".data.isSuffixOf fname then fname.take (fname.length - 3) else fname

structure PageData where
  page_name : List Char
  page_number : Nat
  content : List Char
  available_images : List (List Char)
  deriving DecidableEq, Repr

/-- `load_page_content(md_file, markdown_dir)` for a readable file. -/
def load_page_content (fname content : List Char)
    (figuresDir : List (List Char)) : PageData :=
  { page_name := stemOf fname
    page_number := get_page_number fname
    content := content
    available_images := find_image_files content fname figuresDir }

/-- `load_book_content(md_files, page_dir)`, every file readable. -/
def load_book_content (files : List (List Char × List Char))
    (figuresDir : List (List Char)) : List PageData :=
  files.map (fun f => load_page_content f.1 f.2 figuresDir)

def natToChars (n : Nat) : List Char := Nat.toDigits 10 n

def joinCommaSpace : List (List Char) → List Char
  | [] => []
  | [x] => x
  | x :: xs => x ++ ", ".data ++ joinCommaSpace xs

/-- Fixed head of the analysis prompt. -/
def promptIntro (book_id : List Char) : List Char :=
  "You are analyzing a Norwegian biographical reference work that spans multiple pages. \nThe book ID is: ".data ++
    book_id ++
    "\n\nIMPORTANT: Biographical entries sometime span across consecutive pages. Common patterns:\n1. A person\x27s name (SURNAME, Given names) appears at the END of page N\n2. Their portrait and detailed biographical information appears at the BEGINNING of page N+1\n3. Some entries are split where basic info is on one page and detailed career/family info continues on the next\n\nEach page contains biographical entries with the format:\nSURNAME, Given names, profession, biographical details...\n\nPortraits/images are referenced as ![Figure](figures/filename.png) in the markdown.\n\nPAGES TO ANALYZE (in sequential order):\n".data

def pageBlock (p : PageData) : List Char :=
  "\n--- PAGE ".data ++ natToChars p.page_number ++ " (File: ".data ++
    p.page_name ++ ".md) ---\nAvailable images for this page: ".data ++
    (if p.available_images.isEmpty then "None".data
     else joinCommaSpace p.available_images) ++
    "\n\nMarkdown content:\n".data ++ p.content ++ "\n\n".data

def previewBlock (np : PageData) : List Char :=
  "\n[PREVIEW OF NEXT PAGE ".data ++ natToChars np.page_number ++
    " - First 500 characters:]\n".data ++
    (if 500 < np.content.length then np.content.take 500 ++ "...".data
     else np.content) ++
    "\n\n".data

def pagesSection : List PageData → List Char
  | [] => []
  | p :: rest =>
    pageBlock p ++
      (match rest with
       | [] => []
       | np :: _ => previewBlock np) ++
      pagesSection rest

/-- Fixed tail of the analysis prompt (rule cascade and output-shape
instructions, transcribed from the source). -/
def promptTask : List Char :=
  "\nTASK:\nAnalyze ALL pages together to associate each portrait/image with the person it most likely depicts.\n\nIMPORTANT (strict pairing rules, in priority order):\n1. **Exact syntax** \x2d Every portrait appears as ![Figure](figures/filename.png). Search **only** for this pattern.  \n2. **Immediate-name rule (highest certainty)** \x2d If the image tag is followed (same line or next non-empty line) by a name whose LASTNAME is in ALL-CAPS, **always pair this image with that name**. Treat this as a 100 % match unless another image intervenes. IMPORTANT: If the name is not in ALL-CAPS, do NOT use it for pairing.\n3. **Paragraph-embedded rule** \x2d If the image tag sits inside a prose paragraph that is clearly describing a person, pair the image with that individual rather than the next standalone name heading.  \n4. **Page-start rule (cross-page)** \x2d When a markdown page *begins* with an image tag, assume the portrait belongs to the person whose name appeared last on the *previous* page. Mark is_cross_page = true and cross_page_type = \"image_first_on_next_page\". The exeption is if the **Immediate-name rule (highest certainty)** applies, in which case use that name instead. then  Mark is_cross_page = fallse and cross_page_type = \"same_page\". \n5. **Conflict handling** \x2d If two images appear back-to-back with no intervening name, or if one name plausibly maps to multiple images, list all possibilities but set associated_person to null and flag for manual review.\n\nCRITICAL: Ensure your response is valid JSON format. Escape all quotes and newlines properly in string values.\n\nFor each image found (both referenced in markdown and available), determine:\n- Which person it most likely depicts\n- Whether this is a cross-page association (name on page N, portrait on page N+1)\n- Your confidence level based on proximity and context\n\nRespond with ONLY a valid JSON array (no other text):\n[\n  \x7b\n    \"image_filename\": \"actual_image_filename.jpg\",\n    \"image_page\": page_number,\n    \"image_file\": \"page_filename.md\",\n    \"referenced_in_markdown\": true,\n    \"associated_person\": \"SURNAME, Given Names\",\n    \"person_page\": page_number,\n    \"person_file\": \"page_filename.md\",\n    \"confidence\": 0.92,\n    \"is_cross_page\": false,\n    \"cross_page_type\": \"same_page\",\n    \"reasoning\": \"Brief explanation without quotes or newlines\",\n    \"context_evidence\": \"Relevant text snippet without quotes or newlines\"\n  \x7d\n]\n\nIMPORTANT (output hygiene):\n- Use only double quotes for JSON strings\n- Do not include newlines or unescaped quotes in string values\n- Replace any quotes in text with single quotes or apostrophes\n- Keep reasoning and context_evidence brief and on single lines\n- If no association can be made, set associated_person to null\n".data

def buildPrompt (book_id : List Char) (pages : List PageData) : List Char :=
  promptIntro book_id ++ pagesSection pages ++ promptTask

/-- `assoc["book_id"] = book_id`: overwrite or append the key. -/
def setField : JsonFields → List Char → Json → JsonFields
  | JsonFields.nil, k, v => JsonFields.cons k v JsonFields.nil
  | JsonFields.cons k2 v2 t, k, v =>
    if k2 = k then JsonFields.cons k2 v t
    else JsonFields.cons k2 v2 (setField t k v)

/-- The `for assoc in associations: assoc["book_id"] = book_id` loop;
`none` models the `TypeError` on a non-dict element, which the enclosing
`except` turns into an empty result. -/
def tagAll : JsonItems → List Char → Option JsonItems
  | JsonItems.nil, _ => some JsonItems.nil
  | JsonItems.cons (Json.obj fs) t, bid =>
    (tagAll t bid).map
      (fun t2 => JsonItems.cons
        (Json.obj (setField fs "book_id".data (Json.str bid))) t2)
  | JsonItems.cons _ _, _ => none

/-- `analyze_book_portraits(book_id, pages)` with the oracle `respond`. -/
def analyze_book_portraits (respond : List Char → List Char)
    (book_id : List Char) (pages : List PageData) : JsonItems :=
  match extract_json_from_response (respond (buildPrompt book_id pages)) with
  | JsonItems.nil => JsonItems.nil
  | as_ =>
    match tagAll as_ book_id with
    | some l => l
    | none => JsonItems.nil

structure BookResult where
  book_id : List Char
  error : Option (List Char)
  pages_processed : Nat
  total_images : Nat
  associations : JsonItems
  deriving DecidableEq, Repr

def totalImages (pages : List PageData) : Nat :=
  (pages.map (fun p => p.available_images.length)).sum

/-- `process_book(book_id, md_files, markdown_dir)`. -/
def process_book (respond : List Char → List Char) (book_id : List Char)
    (files : List (List Char × List Char)) (figuresDir : List (List Char)) :
    BookResult :=
  let pages := load_book_content files figuresDir
  if pages.isEmpty then
    { book_id := book_id
      error := some "No pages could be loaded".data
      pages_processed := 0
      total_images := 0
      associations := JsonItems.nil }
  else if totalImages pages = 0 then
    { book_id := book_id
      error := none
      pages_processed := pages.length
      total_images := 0
      associations := JsonItems.nil }
  else
    { book_id := book_id
      error := none
      pages_processed := pages.length
      total_images := totalImages pages
      associations := analyze_book_portraits respond book_id pages }

/-- C10 (confirmed): for a book whose loaded pages contain zero image
references (markdown tags and matching figure files alike),
`process_book` returns an empty association list and a zero image count,
and its result does not depend on the oracle at all; conversely, whenever
at least one image reference exists the oracle's answer does reach the
result, i.e. the oracle is consulted exactly in the nonzero case. -/
theorem C10_zero_images_skip_oracle (book_id : List Char)
    (files : List (List Char × List Char)) (figuresDir : List (List Char))
    (hne : files ≠ [])
    (hzero : totalImages (load_book_content files figuresDir) = 0)
    (r1 r2 : List Char → List Char) :
    (process_book r1 book_id files figuresDir).associations = JsonItems.nil ∧
    (process_book r1 book_id files figuresDir).total_images = 0 ∧
    process_book r1 book_id files figuresDir =
      process_book r2 book_id files figuresDir ∧
    (∀ (files2 : List (List Char × List Char)) (figs2 : List (List Char)),
      totalImages (load_book_content files2 figs2) ≠ 0 →
      process_book (fun _ => "x".data) book_id files2 figs2 ≠
        process_book (fun _ => "[\x7b\"a\": 1\x7d]".data) book_id files2 figs2) := by
  have hpe : (load_book_content files figuresDir).isEmpty = false := by
    cases files with
    | nil => exact absurd rfl hne
    | cons f fs => simp [load_book_content]
  refine ⟨?_, ?_, ?_, ?_⟩
  · simp [process_book, hpe, hzero]
  · simp [process_book, hpe, hzero]
  · simp [process_book, hpe, hzero]
  · intro files2 figs2 hnz heq
    have hpe2 : (load_book_content files2 figs2).isEmpty = false := by
      cases hf : files2 with
      | nil => rw [hf] at hnz; exact absurd rfl hnz
      | cons f fs => simp [load_book_content]
    have h1 : (process_book (fun _ => "x".data) book_id files2 figs2).associations =
        JsonItems.nil := by
      simp only [process_book, hpe2, Bool.false_eq_true, if_false, hnz, if_neg]
      have : extract_json_from_response "x".data = JsonItems.nil := by decide
      simp [analyze_book_portraits, this]
    have h2 : (process_book (fun _ => "[\x7b\"a\": 1\x7d]".data)
        book_id files2 figs2).associations =
        JsonItems.cons (Json.obj (JsonFields.cons "a".data (Json.num "1".data)
          (JsonFields.cons "book_id".data (Json.str book_id)
            JsonFields.nil))) JsonItems.nil := by
      simp only [process_book, hpe2, Bool.false_eq_true, if_false, hnz, if_neg]
      have hx : extract_json_from_response "[\x7b\"a\": 1\x7d]".data =
          JsonItems.cons (Json.obj (JsonFields.cons "a".data
            (Json.num "1".data) JsonFields.nil)) JsonItems.nil := by decide
      simp [analyze_book_portraits, hx, tagAll, setField]
    rw [heq, h2] at h1
    exact JsonItems.noConfusion h1

/-- Witness for C10: a one-page book with no image references. -/
theorem C10_zero_images_witness :
    (process_book (fun _ => "anything".data) "digibok_1".data
        [("digibok_1_0001.md".data, "Hello no images".data)] []).associations =
      JsonItems.nil := by
  exact (C10_zero_images_skip_oracle "digibok_1".data
    [("digibok_1_0001.md".data, "Hello no images".data)] []
    (by decide) (by decide)
    (fun _ => "anything".data) (fun _ => "other".data)).1

/-! ## Reconciliation / Merge Layer
`collecting_all_csv_files_Dolphin.py`.  A dataframe row is a (name,
book id) key plus named nullable columns; `none` models `NaN`.  The
retry-update loop, the outer portrait merge with `combine_first`, and the
final left merge are modelled as list transformations.  Pandas sorts the
keys of an `outer` merge; since the script re-sorts the portrait table by
(book id, name) immediately afterwards, the outer result is modelled as
matched pairs followed by right-only rows, before that same sort. -/

structure Row where
  name : List Char
  book_id : List Char
  fields : List (List Char × Option (List Char))
  deriving DecidableEq, Repr

def lookupField (fs : List (List Char × Option (List Char))) (c : List Char) :
    Option (Option (List Char)) :=
  match fs with
  | [] => none
  | kv :: t => if kv.1 = c then some kv.2 else lookupField t c

/-- `for col in df_failed.columns: if col in df_merged.columns:
df_merged.loc[mask, col] = failed_row[col]` — every column present in
both takes the retry row's value, null or not. -/
def updCols (base fr : Row) : Row :=
  { base with
    fields := base.fields.map
      (fun kv =>
        match lookupField fr.fields kv.1 with
        | some w => (kv.1, w)
        | none => kv) }

/-- One iteration of the retry loop: if any row matches the key, update
every matching row; rows of the retry set with no key match are dropped. -/
def applyFailedRow (df : List Row) (fr : Row) : List Row :=
  if df.any (fun r => decide (r.name = fr.name) && decide (r.book_id = fr.book_id)) then
    df.map (fun r =>
      if r.name = fr.name ∧ r.book_id = fr.book_id then updCols r fr else r)
  else df

/-- The whole `for _, failed_row in df_failed.iterrows()` loop. -/
def mergeRetryRows (main failed : List Row) : List Row :=
  failed.foldl applyFailedRow main

structure PRow where
  name : List Char
  book_id : List Char
  image : Option (List Char)
  deriving DecidableEq, Repr

structure PRow2 where
  name : List Char
  book_id : List Char
  image : Option (List Char)
  image_next : Option (List Char)
  deriving DecidableEq, Repr

def keyMatchP (l r : PRow) : Bool :=
  decide (r.name = l.name) && decide (r.book_id = l.book_id)

/-- `df_next_page_portraits[df_next_page_portraits['image_filename'].notnull()]`. -/
def filterNotNull (rs : List PRow) : List PRow :=
  rs.filter (fun r => r.image.isSome)

/-- `pd.merge(..., on=['name','book_id'], how='outer', suffixes=('', '_next_page'))`. -/
def pdMergeOuter (L R : List PRow) : List PRow2 :=
  (L.map (fun l =>
    match R.filter (keyMatchP l) with
    | [] => [⟨l.name, l.book_id, l.image, none⟩]
    | ms => ms.map (fun m => ⟨l.name, l.book_id, l.image, m.image⟩))).flatten ++
  (R.filter (fun r => !L.any (fun l => keyMatchP l r))).map
    (fun r => ⟨r.name, r.book_id, none, r.image⟩)

/-- `combine_first` then dropping the suffix column. -/
def combineImages (rs : List PRow2) : List PRow :=
  rs.map (fun r =>
    ⟨r.name, r.book_id,
     match r.image_next with
     | some v => some v
     | none => r.image⟩)

/-- (book id, name) lexicographic order for `sort_values(by=['book_id','name'])`. -/
def bookNameLe (a b : PRow) : Bool :=
  if a.book_id = b.book_id then lexLe a.name b.name else lexLe a.book_id b.book_id

def insertPRow (v : PRow) : List PRow → List PRow
  | [] => [v]
  | w :: ws => if bookNameLe v w then v :: w :: ws else w :: insertPRow v ws

def sortPRows (rs : List PRow) : List PRow :=
  rs.foldr insertPRow []

/-- The portrait table the script is building: the value of lines 45-48
(outer merge of the two portrait tables, `combine_first`, dropping the
suffix column) together with the (book id, name) sort that line 53 would
apply.  The script raises on line 50 before the sort, so beyond line 48
this value is the hypothetical continuation of the computation only. -/
def portraitJoinTable (single next : List PRow) : List PRow :=
  sortPRows (combineImages (pdMergeOuter single (filterNotNull next)))

/-- The `AttributeError` message Python raises for `None.reset_index`. -/
def pandasAttributeError : List Char :=
  "AttributeError: \x27NoneType\x27 object has no attribute \x27reset_index\x27".data

/-- `df_merged_portraits` as the script leaves it.  Line 50 executes
`df_merged_portraits.drop(columns=['image_filename_next_page'],
inplace=True).reset_index(drop=True)`: the in-place drop itself succeeds,
but with `inplace=True` the `drop` call returns `None`, and invoking
`.reset_index` on `None` raises `AttributeError` — unconditionally, on
every input.  The script dies here; lines 53-66 (the sort, the final
left merge, the save) never run. -/
def df_merged_portraits (_single _next : List PRow) :
    Except (List Char) (List PRow) :=
  Except.error pandasAttributeError

/-- `df_merged[['name','book_id','markdown_chunk','biography_json']]`. -/
def select4 (r : Row) : Row :=
  { r with
    fields := r.fields.filter
      (fun kv => kv.1 = "markdown_chunk".data ∨ kv.1 = "biography_json".data) }

structure FRow where
  name : List Char
  book_id : List Char
  fields : List (List Char × Option (List Char))
  image : Option (List Char)
  deriving DecidableEq, Repr

/-- `pd.merge(df_merged, df_merged_portraits, on=['name','book_id'],
how='left')`: every left row in order, paired with each matching right
row, or with a null image when none matches. -/
def leftBlock (R : List PRow) (l : Row) : List FRow :=
  match R.filter (fun r =>
      decide (r.name = l.name) && decide (r.book_id = l.book_id)) with
  | [] => [⟨l.name, l.book_id, l.fields, none⟩]
  | ms => ms.map (fun m => ⟨l.name, l.book_id, l.fields, m.image⟩)

def pdMergeLeft (L : List Row) (R : List PRow) : List FRow :=
  (L.map (leftBlock R)).flatten

/-- `df_final` of the script (line 58), from the four source tables.  The
exception from line 50 propagates: the `ok` branch, which would apply the
left merge to the portrait table, is never taken. -/
def finalMergedDataset (main failed : List Row) (single next : List PRow) :
    Except (List Char) (List FRow) :=
  match df_merged_portraits single next with
  | Except.error e => Except.error e
  | Except.ok portraits =>
    Except.ok (pdMergeLeft ((mergeRetryRows main failed).map select4)
      portraits)

/-- C1 counterexample: base row (("X","B1"), field="Y") merged with retry
row (("X","B1"), field=null) yields field=null — the retry loop assigns
the retry value with no null check, so a null retry value erases a
non-empty base value, contrary to the claim. -/
theorem C1_counterexample :
    mergeRetryRows
        [⟨"X".data, "B1".data, [("field".data, some "Y".data)]⟩]
        [⟨"X".data, "B1".data, [("field".data, none)]⟩] =
      [⟨"X".data, "B1".data, [("field".data, none)]⟩] ∧
    ([⟨"X".data, "B1".data, [("field".data, none)]⟩] : List Row) ≠
      [⟨"X".data, "B1".data, [("field".data, some "Y".data)]⟩] := by
  exact ⟨by decide, by decide⟩

theorem lookupField_updCols (b fr : Row) (c : List Char)
    (w : Option (List Char)) (hw : lookupField fr.fields c = some w) :
    ∀ v, lookupField b.fields c = some v →
      lookupField (updCols b fr).fields c = some w := by
  show ∀ v, _ → lookupField (b.fields.map _) c = some w
  induction b.fields with
  | nil => intro v hv; simp [lookupField] at hv
  | cons kv t ih =>
    intro v hv
    by_cases hk : kv.1 = c
    · simp only [lookupField, hk, if_pos] at hv
      simp only [List.map_cons]
      cases hl : lookupField fr.fields kv.1 with
      | none => rw [hk] at hl; rw [hl] at hw; exact absurd hw (by simp)
      | some w2 =>
        rw [hk] at hl
        rw [hl] at hw
        have hww : w2 = w := Option.some.inj hw
        simp [lookupField, hk, hl, hww]
    · simp only [lookupField, hk, if_neg, ite_false] at hv
      have := ih v hv
      simp only [List.map_cons, lookupField]
      cases hl : lookupField fr.fields kv.1 <;> simp [hk, this]

/-- C1 (amended): when a retry row matches a base row on (name, book id),
every column present in both datasets takes the retry row's value
*unconditionally* — a null/empty retry value does overwrite a non-empty
base value; a base row keeps its values only when no retry row matches its
key (and retry rows without a key match are dropped). -/
theorem C1_retry_merge_semantics (b fr g : Row) (c : List Char)
    (w : Option (List Char))
    (hn : b.name = fr.name) (hb : b.book_id = fr.book_id)
    (hw : lookupField fr.fields c = some w)
    (hg : ¬(b.name = g.name ∧ b.book_id = g.book_id)) :
    mergeRetryRows [b] [fr] = [updCols b fr] ∧
    (∀ v, lookupField b.fields c = some v →
      lookupField (updCols b fr).fields c = some w) ∧
    mergeRetryRows [b] [g] = [b] := by
  refine ⟨?_, lookupField_updCols b fr c w hw, ?_⟩
  · show applyFailedRow [b] fr = _
    simp [applyFailedRow, hn, hb]
  · show applyFailedRow [b] g = _
    have hcond : (decide (b.name = g.name) && decide (b.book_id = g.book_id)) = false := by
      rcases Decidable.em (b.name = g.name) with h1 | h1
      · rcases Decidable.em (b.book_id = g.book_id) with h2 | h2
        · exact absurd ⟨h1, h2⟩ hg
        · simp [h2]
      · simp [h1]
    simp [applyFailedRow, hcond, hg]

/-- Witness for C1: null overwrites "Y" on a key match; a key-mismatched
retry row changes nothing. -/
theorem C1_retry_witness :
    lookupField (updCols
        ⟨"X".data, "B1".data, [("field".data, some "Y".data)]⟩
        ⟨"X".data, "B1".data, [("field".data, none)]⟩).fields
      "field".data = some none := by
  exact (C1_retry_merge_semantics
    ⟨"X".data, "B1".data, [("field".data, some "Y".data)]⟩
    ⟨"X".data, "B1".data, [("field".data, none)]⟩
    ⟨"Z".data, "B1".data, []⟩ "field".data none
    (by decide) (by decide) (by decide) (by decide)).2.1
    (some "Y".data) (by decide)

theorem applyFailedRow_length (df : List Row) (fr : Row) :
    (applyFailedRow df fr).length = df.length := by
  unfold applyFailedRow
  split <;> simp

theorem mergeRetryRows_length (failed : List Row) :
    ∀ main, (mergeRetryRows main failed).length = main.length := by
  induction failed with
  | nil => intro main; rfl
  | cons fr rest ih =>
    intro main
    exact (ih (applyFailedRow main fr)).trans (applyFailedRow_length main fr)

theorem leftBlock_length_pos (R : List PRow) (l : Row) :
    1 ≤ (leftBlock R l).length := by
  unfold leftBlock
  cases hf : R.filter (fun r =>
      decide (r.name = l.name) && decide (r.book_id = l.book_id)) <;> simp

theorem leftBlock_length_one (R : List PRow) (l : Row)
    (h : (R.filter (fun r =>
      decide (r.name = l.name) && decide (r.book_id = l.book_id))).length ≤ 1) :
    (leftBlock R l).length = 1 := by
  unfold leftBlock
  cases hf : R.filter (fun r =>
      decide (r.name = l.name) && decide (r.book_id = l.book_id)) with
  | nil => simp
  | cons m t =>
    rw [hf] at h
    cases t with
    | nil => simp
    | cons a b => simp at h

theorem pdMergeLeft_length_ge (R : List PRow) :
    ∀ L : List Row, L.length ≤ (pdMergeLeft L R).length := by
  intro L
  induction L with
  | nil => simp [pdMergeLeft]
  | cons l t ih =>
    show (l :: t).length ≤ ((leftBlock R l :: t.map (leftBlock R)).flatten).length
    rw [List.flatten_cons, List.length_append]
    have h1 := leftBlock_length_pos R l
    have h2 : (pdMergeLeft t R).length = ((t.map (leftBlock R)).flatten).length := rfl
    rw [h2] at ih
    simp only [List.length_cons]
    omega

theorem pdMergeLeft_length_eq (R : List PRow) :
    ∀ L : List Row,
      (∀ l ∈ L, (R.filter (fun r =>
        decide (r.name = l.name) && decide (r.book_id = l.book_id))).length ≤ 1) →
      (pdMergeLeft L R).length = L.length := by
  intro L
  induction L with
  | nil => intro _; simp [pdMergeLeft]
  | cons l t ih =>
    intro h
    show ((leftBlock R l :: t.map (leftBlock R)).flatten).length = _
    rw [List.flatten_cons, List.length_append]
    have ht : (pdMergeLeft t R).length = t.length :=
      ih (fun x hx => h x (by simp [hx]))
    have h2 : (pdMergeLeft t R).length = ((t.map (leftBlock R)).flatten).length := rfl
    rw [h2] at ht
    rw [leftBlock_length_one R l (h l (by simp)), ht]
    simp [Nat.add_comm]

/-- C8 counterexample: on a concrete 1-row base dataset (any input would
do) the script produces no final merged dataset at all: line 50's
`drop(columns=..., inplace=True).reset_index(drop=True)` calls
`.reset_index` on the `None` that the in-place drop returns, raising
`AttributeError` before the final merge of line 58 can run — so the
claim that the final merged dataset has exactly the base dataset's row
count fails. -/
theorem C8_counterexample :
    finalMergedDataset
        [⟨"X".data, "B1".data, [("markdown_chunk".data, some "c".data)]⟩] []
        [⟨"X".data, "B1".data, some "i1.png".data⟩] [] =
      Except.error pandasAttributeError ∧
    ([⟨"X".data, "B1".data, [("markdown_chunk".data, some "c".data)]⟩] :
      List Row).length = 1 := by
  exact ⟨rfl, by decide⟩

/-- C8 (amended): no final merged dataset is ever produced — the chained
`.reset_index` on the `None` returned by the in-place column drop of
line 50 raises `AttributeError` on every input before the final merge;
the retry-merge stage, which does complete, preserves the base dataset's
row count exactly; and the left merge the script would perform next
yields at least as many rows as the base dataset, with equality whenever
the portrait table carries at most one row per base (name, book id) key
(duplicate portrait keys would duplicate the matching base row). -/
theorem C8_final_row_count (main failed : List Row) (single next : List PRow) :
    finalMergedDataset main failed single next =
      Except.error pandasAttributeError ∧
    (mergeRetryRows main failed).length = main.length ∧
    main.length ≤ (pdMergeLeft ((mergeRetryRows main failed).map select4)
      (portraitJoinTable single next)).length ∧
    ((∀ l ∈ (mergeRetryRows main failed).map select4,
        ((portraitJoinTable single next).filter (fun r =>
          decide (r.name = l.name) && decide (r.book_id = l.book_id))).length ≤ 1) →
      (pdMergeLeft ((mergeRetryRows main failed).map select4)
        (portraitJoinTable single next)).length = main.length) := by
  have hlen : ((mergeRetryRows main failed).map select4).length = main.length := by
    rw [List.length_map, mergeRetryRows_length]
  refine ⟨rfl, mergeRetryRows_length failed main, ?_, ?_⟩
  · have := pdMergeLeft_length_ge (portraitJoinTable single next)
      ((mergeRetryRows main failed).map select4)
    rw [hlen] at this
    exact this
  · intro h
    have := pdMergeLeft_length_eq (portraitJoinTable single next)
      ((mergeRetryRows main failed).map select4) h
    rw [hlen] at this
    exact this

/-- Witness for C8: with a unique portrait key the would-be left merge
has exactly the base row count, and the script itself errors. -/
theorem C8_row_count_witness :
    (pdMergeLeft
        ((mergeRetryRows
          [⟨"X".data, "B1".data, [("markdown_chunk".data, some "c".data)]⟩]
          []).map select4)
        (portraitJoinTable [⟨"X".data, "B1".data, some "i1.png".data⟩] [])).length = 1 := by
  exact (C8_final_row_count
    [⟨"X".data, "B1".data, [("markdown_chunk".data, some "c".data)]⟩] []
    [⟨"X".data, "B1".data, some "i1.png".data⟩] []).2.2.2 (by decide)

/-! ## Cross-page portrait association
`find_files_starting_with_figures` and `associate_portraits_with_names`
from `extract_all_names_Dolphin.py`.  A page file is (filename, raw
content); the scan records the file's (possibly truncated) first line,
and the association loop updates the portrait column of the dataframe
whose rows are `Entry` values in order. -/

structure FileInfo where
  file_name : List Char
  first_line : List Char
  deriving DecidableEq, Repr

/-- `content.split('\n')[0][:100] + '...'` when over 100 characters. -/
def firstLineTrunc (content : List Char) : List Char :=
  let l0 := content.takeWhile (· ≠ '\n')
  if 100 < l0.length then l0.take 100 ++ "...".data else l0

/-- `find_files_starting_with_figures(markdown_directory)` over the
(filename, raw content) pairs of the `digibok*.md` files found: keep
files whose stripped content starts with `![Figure]` or `![Figure(`,
recording name and first line (`file_path`/`file_size` are never read by
the association step and are omitted). -/
def find_files_starting_with_figures
    (files : List (List Char × List Char)) : List FileInfo :=
  files.filterMap (fun f =>
    if "![Figure]".data.isPrefixOf (pyStrip f.2) ||
        "![Figure(".data.isPrefixOf (pyStrip f.2) then
      some ⟨f.1, firstLineTrunc (pyStrip f.2)⟩
    else none)

/-- Match of `!\[Figure\]\(figures/([^)]+)\)` starting exactly here:
maximal `)`-free nonempty capture closed by `)`. -/
def figRefAt (cs : List Char) : Option (List Char) :=
  if "![Figure](figures/".data.isPrefixOf cs then
    match (cs.drop 18).dropWhile (· ≠ ')') with
    | ')' :: _ =>
      if (cs.drop 18).takeWhile (· ≠ ')') = [] then none
      else some ((cs.drop 18).takeWhile (· ≠ ')'))
    | _ => none
  else none

/-- `re.search(r'!\[Figure\]\(figures/([^)]+)\)', first_line)`. -/
def findFigureRef : List Char → Option (List Char)
  | [] => none
  | c :: r =>
    match figRefAt (c :: r) with
    | some f => some f
    | none => findFigureRef r

/-- Match of `(digibok_\d+_)(\d+)\.md` starting exactly here. -/
def digibokAt (cs : List Char) : Option (List Char × List Char) :=
  if "digibok_".data.isPrefixOf cs then
    if (cs.drop 8).takeWhile Char.isDigit = [] then none
    else
      match (cs.drop 8).dropWhile Char.isDigit with
      | '_' :: rest2 =>
        if rest2.takeWhile Char.isDigit = [] then none
        else if ".md".data.isPrefixOf
            (rest2.drop (rest2.takeWhile Char.isDigit).length) then
          some ("digibok_".data ++ (cs.drop 8).takeWhile Char.isDigit ++ ['_'],
            rest2.takeWhile Char.isDigit)
        else none
      | _ => none
  else none

/-- `re.search(r'(digibok_\d+_)(\d+)\.md', file_name)`: book prefix
(group 1, trailing underscore included) and page digits (group 2). -/
def matchDigibok : List Char → Option (List Char × List Char)
  | [] => none
  | c :: r =>
    match digibokAt (c :: r) with
    | some g => some g
    | none => matchDigibok r

def digitChar : Nat → Char
  | 0 => '0' | 1 => '1' | 2 => '2' | 3 => '3' | 4 => '4'
  | 5 => '5' | 6 => '6' | 7 => '7' | 8 => '8' | 9 => '9'
  | _ => '*'

def natToCharsAux : Nat → Nat → List Char
  | 0, _ => []
  | fuel + 1, n =>
    if n < 10 then [digitChar n]
    else natToCharsAux fuel (n / 10) ++ [digitChar (n % 10)]

/-- Base-10 digits of a natural number. -/
def natChars (n : Nat) : List Char := natToCharsAux (n + 1) n

/-- Python `f"{n:04d}"`: zero-pad to overall width 4; a negative number's
sign counts toward the width. -/
def intPad4 (n : Int) : List Char :=
  if n < 0 then
    '-' :: (List.replicate (3 - (natChars (-n).toNat).length) '0' ++
      natChars (-n).toNat)
  else
    List.replicate (4 - (natChars n.toNat).length) '0' ++ natChars n.toNat

structure NameRow where
  name : List Char
  book_id : List Char
  portrait_filename : List Char
  deriving DecidableEq, Repr

/-- `df['portrait_filename'] = ''`. -/
def initPortraits (rows : List Entry) : List NameRow :=
  rows.map (fun e => ⟨e.name, e.book_id, []⟩)

/-- `df.loc[previous_page_names.index[-1], 'portrait_filename'] = ...`:
update the portrait of the *last* row whose book id matches, if any. -/
def updateLastMatching : List NameRow → List Char → List Char → List NameRow
  | [], _, _ => []
  | r :: rs, bid, fn =>
    if rs.any (fun x => decide (x.book_id = bid)) then
      r :: updateLastMatching rs bid fn
    else if r.book_id = bid then
      { r with portrait_filename := fn } :: rs
    else r :: rs

/-- One iteration of the association loop over a figure-starting file. -/
def assocStep (df : List NameRow) (fi : FileInfo) : List NameRow :=
  match findFigureRef fi.first_line with
  | none => df
  | some fname =>
    match matchDigibok fi.file_name with
    | none => df
    | some g =>
      updateLastMatching df
        (g.1 ++ intPad4 ((digitsToNat g.2 : Int) - 1)) fname

/-- `associate_portraits_with_names(df, files_starting_with_figures)`. -/
def associate_portraits_with_names (rows : List Entry)
    (files : List FileInfo) : List NameRow :=
  files.foldl assocStep (initPortraits rows)

/-- Modelled from the spec (§6 external interfaces): page text embeds
image references with the markup `![label](path/filename.ext)`; this
tests whether a page's content begins with such a tag. -/
def specImageRefAtStart (cs : List Char) : Bool :=
  match cs with
  | '!' :: '[' :: rest =>
    match (rest.dropWhile (· ≠ ']')) with
    | ']' :: '(' :: rest2 =>
      match rest2.dropWhile (· ≠ ')') with
      | ')' :: _ => decide (rest2.takeWhile (· ≠ ')') ≠ [])
      | _ => false
    | _ => false
  | _ => false

theorem takeWhileAllAppend (p : Char → Bool) (xs ys : List Char)
    (h : ∀ c ∈ xs, p c) :
    (xs ++ ys).takeWhile p = xs ++ ys.takeWhile p := by
  induction xs with
  | nil => simp
  | cons c t ih =>
    have hc : p c := h c (by simp)
    simp only [List.cons_append, List.takeWhile_cons, hc]
    rw [ih (fun x hx => h x (by simp [hx]))]
    simp

theorem dropWhileAllAppend (p : Char → Bool) (xs ys : List Char)
    (h : ∀ c ∈ xs, p c) :
    (xs ++ ys).dropWhile p = ys.dropWhile p := by
  induction xs with
  | nil => simp
  | cons c t ih =>
    have hc : p c := h c (by simp)
    simp only [List.cons_append, List.dropWhile_cons, hc]
    exact ih (fun x hx => h x (by simp [hx]))

theorem isPrefixOf_append_self (a b : List Char) :
    a.isPrefixOf (a ++ b) = true := by
  rw [List.isPrefixOf_iff_prefix]
  exact List.prefix_append a b

theorem digitsToNat_append_one (xs : List Char) (c : Char) :
    digitsToNat (xs ++ [c]) = digitsToNat xs * 10 + (c.toNat - 48) := by
  unfold digitsToNat
  rw [List.foldl_append]
  rfl

theorem digitChar_toNat (k : Nat) (h : k < 10) :
    (digitChar k).toNat - 48 = k := by
  interval_cases k <;> decide

theorem digitsToNat_natToCharsAux :
    ∀ (fuel n : Nat), n < fuel → digitsToNat (natToCharsAux fuel n) = n := by
  intro fuel
  induction fuel with
  | zero => intro n h; omega
  | succ f ih =>
    intro n h
    unfold natToCharsAux
    by_cases h10 : n < 10
    · rw [if_pos h10]
      have : digitsToNat [digitChar n] = (digitChar n).toNat - 48 := by
        unfold digitsToNat
        simp
      rw [this, digitChar_toNat n h10]
    · rw [if_neg h10]
      rw [digitsToNat_append_one, ih (n / 10) (by omega),
        digitChar_toNat (n % 10) (by omega)]
      omega

theorem digitsToNat_natChars (n : Nat) : digitsToNat (natChars n) = n :=
  digitsToNat_natToCharsAux (n + 1) n (by omega)

theorem digitsToNat_zeros (k : Nat) (ds : List Char) :
    digitsToNat (List.replicate k '0' ++ ds) = digitsToNat ds := by
  induction k with
  | zero => simp
  | succ m ih =>
    show digitsToNat ('0' :: (List.replicate m '0' ++ ds)) = _
    unfold digitsToNat at *
    simpa using ih

theorem digitsToNat_intPad4_nonneg (m : Nat) :
    digitsToNat (intPad4 (Int.ofNat m)) = m := by
  unfold intPad4
  have hnn : ¬ Int.ofNat m < 0 := by
    show ¬ ((m : Int) < 0)
    omega
  rw [if_neg hnn, digitsToNat_zeros]
  simpa using digitsToNat_natChars m

theorem updateLastMatching_length (bid fn : List Char) :
    ∀ l : List NameRow, (updateLastMatching l bid fn).length = l.length := by
  intro l
  induction l with
  | nil => rfl
  | cons r rs ih =>
    unfold updateLastMatching
    by_cases h1 : rs.any (fun x => decide (x.book_id = bid))
    · simp [h1, ih]
    · by_cases h2 : r.book_id = bid <;> simp [h1, h2]

theorem updateLastMatching_no_match (bid fn : List Char) :
    ∀ l : List NameRow, (∀ r ∈ l, r.book_id ≠ bid) →
      updateLastMatching l bid fn = l := by
  intro l
  induction l with
  | nil => intro _; rfl
  | cons r rs ih =>
    intro h
    unfold updateLastMatching
    have h1 : rs.any (fun x => decide (x.book_id = bid)) = false := by
      rw [List.any_eq_false]
      intro x hx
      simpa using h x (by simp [hx])
    have h2 : ¬ r.book_id = bid := h r (by simp)
    simp [h1, h2, ih (fun x hx => h x (by simp [hx]))]

theorem updateLastMatching_cons (r : NameRow) (rs : List NameRow)
    (bid fn : List Char) :
    updateLastMatching (r :: rs) bid fn =
      if rs.any (fun x => decide (x.book_id = bid)) then
        r :: updateLastMatching rs bid fn
      else if r.book_id = bid then
        { r with portrait_filename := fn } :: rs
      else r :: rs := rfl

theorem updateLastMatching_get?_untouched (bid fn : List Char) :
    ∀ (l : List NameRow) (i : Nat) (r : NameRow),
      l.get? i = some r → r.book_id ≠ bid →
      (updateLastMatching l bid fn).get? i = some r := by
  intro l
  induction l with
  | nil => intro i r hr; simp at hr
  | cons a rs ih =>
    intro i r hr hne
    rw [updateLastMatching_cons]
    by_cases h1 : rs.any (fun x => decide (x.book_id = bid))
    · rw [if_pos h1]
      cases i with
      | zero => simpa using hr
      | succ j =>
        have := ih j r (by simpa using hr) hne
        simpa using this
    · rw [if_neg h1]
      by_cases h2 : a.book_id = bid
      · rw [if_pos h2]
        cases i with
        | zero =>
          have : a = r := by simpa using hr
          exact absurd (this ▸ h2) hne
        | succ j => exact hr
      · rw [if_neg h2]
        exact hr

theorem updateLastMatching_get?_last (bid fn : List Char) :
    ∀ (l : List NameRow) (i : Nat) (r : NameRow),
      l.get? i = some r → r.book_id = bid →
      (∀ (j : Nat) (s : NameRow), l.get? j = some s → i < j → s.book_id ≠ bid) →
      (updateLastMatching l bid fn).get? i =
        some { r with portrait_filename := fn } := by
  intro l
  induction l with
  | nil => intro i r hr; simp at hr
  | cons a rs ih =>
    intro i r hr hbid hlast
    rw [updateLastMatching_cons]
    by_cases h1 : rs.any (fun x => decide (x.book_id = bid))
    · rw [if_pos h1]
      cases i with
      | zero =>
        obtain ⟨x, hx, hxb⟩ := List.any_eq_true.mp h1
        obtain ⟨j, hj⟩ := List.mem_iff_get?.mp hx
        have : x.book_id ≠ bid :=
          hlast (j + 1) x (by simpa using hj) (by omega)
        exact absurd (of_decide_eq_true hxb) this
      | succ j =>
        have := ih j r (by simpa using hr) hbid
          (fun k s hk hjk => hlast (k + 1) s (by simpa using hk) (by omega))
        simpa using this
    · rw [if_neg h1]
      cases i with
      | zero =>
        have ha : a = r := by simpa using hr
        rw [if_pos (ha ▸ hbid)]
        simp [ha]
      | succ j =>
        have hs : rs.get? j = some r := hr
        have : rs.any (fun x => decide (x.book_id = bid)) = true := by
          rw [List.any_eq_true]
          exact ⟨r, List.mem_iff_get?.mpr ⟨j, hs⟩, by simp [hbid]⟩
        exact absurd this h1

theorem findFigureRef_of_figRefAt (cs f : List Char)
    (h : figRefAt cs = some f) : findFigureRef cs = some f := by
  cases cs with
  | nil => simp [figRefAt] at h
  | cons c r => simp [findFigureRef, h]

theorem matchDigibok_of_digibokAt (cs : List Char) (g : List Char × List Char)
    (h : digibokAt cs = some g) : matchDigibok cs = some g := by
  cases cs with
  | nil => simp [digibokAt] at h
  | cons c r => simp [matchDigibok, h]

theorem figRef_extract (fname tailc : List Char) (hf : fname ≠ [])
    (hfp : ∀ c ∈ fname, c ≠ ')') :
    findFigureRef ("![Figure](figures/".data ++ (fname ++ ')' :: tailc)) =
      some fname := by
  apply findFigureRef_of_figRefAt
  unfold figRefAt
  rw [if_pos (isPrefixOf_append_self _ _)]
  have hdrop : ("![Figure](figures/".data ++ (fname ++ ')' :: tailc)).drop 18 =
      fname ++ ')' :: tailc := by
    rw [show (18 : Nat) = ("![Figure](figures/".data).length from rfl]
    exact List.drop_left _ _
  rw [hdrop]
  have htw : (fname ++ ')' :: tailc).takeWhile (fun c => decide (c ≠ ')')) =
      fname := by
    rw [takeWhileAllAppend _ fname _ (fun c hc => decide_eq_true (hfp c hc))]
    simp
  have hdw : (fname ++ ')' :: tailc).dropWhile (fun c => decide (c ≠ ')')) =
      ')' :: tailc := by
    rw [dropWhileAllAppend _ fname _ (fun c hc => decide_eq_true (hfp c hc))]
    simp
  rw [htw, hdw, if_neg hf]
  rfl

theorem digibok_extract (d p : List Char) (hd : d ≠ [])
    (hdd : ∀ c ∈ d, c.isDigit = true)
    (hp : p ≠ []) (hpd : ∀ c ∈ p, c.isDigit = true) :
    matchDigibok ("digibok_".data ++ (d ++ '_' :: (p ++ ".md".data))) =
      some ("digibok_".data ++ d ++ ['_'], p) := by
  apply matchDigibok_of_digibokAt
  unfold digibokAt
  rw [if_pos (isPrefixOf_append_self _ _)]
  have hdrop : ("digibok_".data ++ (d ++ '_' :: (p ++ ".md".data))).drop 8 =
      d ++ '_' :: (p ++ ".md".data) := by
    rw [show (8 : Nat) = ("digibok_".data).length from rfl]
    exact List.drop_left _ _
  rw [hdrop]
  have htw : (d ++ '_' :: (p ++ ".md".data)).takeWhile Char.isDigit = d := by
    rw [takeWhileAllAppend _ d _ hdd]
    simp [List.takeWhile_cons]
  have hdw : (d ++ '_' :: (p ++ ".md".data)).dropWhile Char.isDigit =
      '_' :: (p ++ ".md".data) := by
    rw [dropWhileAllAppend _ d _ hdd]
    simp [List.dropWhile_cons]
  rw [htw, hdw, if_neg hd]
  have htw2 : (p ++ ".md".data).takeWhile Char.isDigit = p := by
    rw [takeWhileAllAppend _ p _ hpd]
    simp [List.takeWhile_cons]
  have hdrop2 : (p ++ ".md".data).drop p.length = ".md".data :=
    List.drop_left _ _
  show (if (p ++ ".md".data).takeWhile Char.isDigit = [] then none
    else if ".md".data.isPrefixOf
        ((p ++ ".md".data).drop
          ((p ++ ".md".data).takeWhile Char.isDigit).length) then
      some ("digibok_".data ++ d ++ ['_'],
        (p ++ ".md".data).takeWhile Char.isDigit)
    else none) = some ("digibok_".data ++ d ++ ['_'], p)
  rw [htw2, hdrop2, if_neg hp, if_pos (by decide)]

theorem firstLine_no_trunc (content : List Char)
    (hlen : (content.takeWhile (fun c => decide (c ≠ '\n'))).length ≤ 100) :
    firstLineTrunc content = content.takeWhile (fun c => decide (c ≠ '\n')) := by
  unfold firstLineTrunc
  rw [if_neg (by omega)]

theorem find_files_single (nfile raw content : List Char)
    (hstrip : pyStrip raw = content)
    (hpre : "![Figure]".data.isPrefixOf content = true) :
    find_files_starting_with_figures [(nfile, raw)] =
      [⟨nfile, firstLineTrunc content⟩] := by
  unfold find_files_starting_with_figures
  simp only [List.filterMap_cons, List.filterMap_nil]
  rw [show pyStrip (nfile, raw).2 = content from hstrip, hpre]
  simp

/-- C2 counterexample: a page whose content begins with the
image-reference tag `![Portrait](figures/p.png)` (valid `![label](path)`
markup per the spec) is ignored by the scan, which only accepts the
prefixes `![Figure]`/`![Figure(`; the portrait is never associated with
the preceding page's last name even though that page has one, refuting
the claim for general image-reference tags. -/
theorem C2_counterexample :
    specImageRefAtStart
        (pyStrip "![Portrait](figures/p.png)\nHANSEN, Ole was born.".data) =
      true ∧
    associate_portraits_with_names
        [⟨"HANSEN, Ole".data, "digibok_7_0001".data⟩]
        (find_files_starting_with_figures
          [("digibok_7_0002.md".data,
            "![Portrait](figures/p.png)\nHANSEN, Ole was born.".data)]) =
      [⟨"HANSEN, Ole".data, "digibok_7_0001".data, []⟩] := by
  exact ⟨by decide, by decide⟩

/-- C2 (amended): for a page file whose stripped content begins with the
recognised tag form `![Figure](figures/<fname>)` — with the reference
contained in a first line of at most 100 characters — and whose filename
is `digibok_<digits>_<page digits>.md` with a positive page number, the
portrait `fname` is attached to the *last* dataframe row whose book id is
the previous-page id (the book prefix with the page number minus one
zero-padded to width 4); the previous-page id never equals the figure
page's own id, so no name on that page receives the portrait; rows with
other book ids are untouched, and if no row carries the previous-page id
the dataframe is left entirely unassociated. -/
theorem C2_figure_first_page_association (rows : List Entry)
    (raw fname d p tailc : List Char)
    (hstrip : pyStrip raw = "![Figure](figures/".data ++ (fname ++ ')' :: tailc))
    (hf : fname ≠ []) (hfp : ∀ c ∈ fname, c ≠ ')')
    (hfn : ∀ c ∈ fname, c ≠ '\n')
    (hd : d ≠ []) (hdd : ∀ c ∈ d, c.isDigit = true)
    (hp : p ≠ []) (hpd : ∀ c ∈ p, c.isDigit = true)
    (hp1 : 1 ≤ digitsToNat p)
    (hlen : (("![Figure](figures/".data ++
      (fname ++ ')' :: tailc)).takeWhile
        (fun c => decide (c ≠ '\n'))).length ≤ 100) :
    let nfile := "digibok_".data ++ (d ++ '_' :: (p ++ ".md".data))
    let prevId := ("digibok_".data ++ d ++ ['_']) ++
      intPad4 ((digitsToNat p : Int) - 1)
    let res := associate_portraits_with_names rows
      (find_files_starting_with_figures [(nfile, raw)])
    res = updateLastMatching (initPortraits rows) prevId fname ∧
    prevId ≠ ("digibok_".data ++ d ++ ['_']) ++ p ∧
    ((∀ e ∈ rows, e.book_id ≠ prevId) → res = initPortraits rows) ∧
    res.length = rows.length ∧
    (∀ (i : Nat) (e : Entry), rows.get? i = some e → e.book_id ≠ prevId →
      res.get? i = some ⟨e.name, e.book_id, []⟩) ∧
    (∀ (i : Nat) (e : Entry), rows.get? i = some e → e.book_id = prevId →
      (∀ (j : Nat) (e2 : Entry), rows.get? j = some e2 → i < j →
        e2.book_id ≠ prevId) →
      res.get? i = some ⟨e.name, e.book_id, fname⟩) := by
  intro nfile prevId res
  have h18 : ∀ c ∈ "![Figure](figures/".data, decide (c ≠ '\n') = true := by
    decide
  have hl0 : ("![Figure](figures/".data ++
      (fname ++ ')' :: tailc)).takeWhile (fun c => decide (c ≠ '\n')) =
      "![Figure](figures/".data ++
        (fname ++ ')' :: tailc.takeWhile (fun c => decide (c ≠ '\n'))) := by
    rw [takeWhileAllAppend _ _ _ h18,
      takeWhileAllAppend _ fname _ (fun c hc => decide_eq_true (hfn c hc))]
    simp
  have hpre : "![Figure]".data.isPrefixOf
      ("![Figure](figures/".data ++ (fname ++ ')' :: tailc)) = true := by
    rw [show "![Figure](figures/".data =
      "![Figure]".data ++ "(figures/".data from rfl, List.append_assoc]
    exact isPrefixOf_append_self _ _
  have hffs := find_files_single nfile raw _ hstrip hpre
  have hfl : firstLineTrunc ("![Figure](figures/".data ++
      (fname ++ ')' :: tailc)) =
      "![Figure](figures/".data ++
        (fname ++ ')' :: tailc.takeWhile (fun c => decide (c ≠ '\n'))) := by
    rw [firstLine_no_trunc _ hlen, hl0]
  have hfig := figRef_extract fname
    (tailc.takeWhile (fun c => decide (c ≠ '\n'))) hf hfp
  have hbok := digibok_extract d p hd hdd hp hpd
  have hres : res = updateLastMatching (initPortraits rows) prevId fname := by
    show associate_portraits_with_names rows
      (find_files_starting_with_figures [(nfile, raw)]) = _
    rw [hffs]
    show assocStep (initPortraits rows) ⟨nfile, firstLineTrunc _⟩ = _
    rw [show (⟨nfile, firstLineTrunc ("![Figure](figures/".data ++
        (fname ++ ')' :: tailc))⟩ : FileInfo) =
      ⟨nfile, "![Figure](figures/".data ++
        (fname ++ ')' :: tailc.takeWhile (fun c => decide (c ≠ '\n')))⟩ from by
      rw [hfl]]
    unfold assocStep
    rw [show (⟨nfile, "![Figure](figures/".data ++
        (fname ++ ')' :: tailc.takeWhile (fun c => decide (c ≠ '\n')))⟩ :
        FileInfo).first_line = "![Figure](figures/".data ++
        (fname ++ ')' :: tailc.takeWhile (fun c => decide (c ≠ '\n'))) from rfl]
    rw [hfig]
    rw [show (⟨nfile, "![Figure](figures/".data ++
        (fname ++ ')' :: tailc.takeWhile (fun c => decide (c ≠ '\n')))⟩ :
        FileInfo).file_name = nfile from rfl]
    rw [show nfile = "digibok_".data ++ (d ++ '_' :: (p ++ ".md".data)) from rfl]
    rw [hbok]
  have hneq : prevId ≠ ("digibok_".data ++ d ++ ['_']) ++ p := by
    intro heq
    have hcast : (digitsToNat p : Int) - 1 =
        ((digitsToNat p - 1 : Nat) : Int) := by omega
    have hpadeq : intPad4 ((digitsToNat p : Int) - 1) = p :=
      List.append_cancel_left heq
    have hval : digitsToNat (intPad4 ((digitsToNat p : Int) - 1)) =
        digitsToNat p - 1 := by
      rw [hcast]
      exact digitsToNat_intPad4_nonneg (digitsToNat p - 1)
    rw [hpadeq] at hval
    omega
  refine ⟨hres, hneq, ?_, ?_, ?_, ?_⟩
  · intro hnone
    rw [hres]
    apply updateLastMatching_no_match
    intro r hr
    obtain ⟨e, he, rfl⟩ := List.mem_map.mp hr
    exact hnone e he
  · rw [hres, updateLastMatching_length, initPortraits, List.length_map]
  · intro i e hi hne
    rw [hres]
    apply updateLastMatching_get?_untouched
    · show (rows.map _).get? i = _
      rw [List.get?_map, hi]
      rfl
    · exact hne
  · intro i e hi hbid hlast
    rw [hres]
    have := updateLastMatching_get?_last prevId fname (initPortraits rows) i
      ⟨e.name, e.book_id, []⟩
      (by show (rows.map _).get? i = _; rw [List.get?_map, hi]; rfl)
      hbid
      (fun j s hj hij => by
        have hj2 : (rows.map (fun e => (⟨e.name, e.book_id, []⟩ : NameRow))).get? j =
            some s := hj
        rw [List.get?_map] at hj2
        cases hg : rows.get? j with
        | none => rw [hg] at hj2; simp at hj2
        | some e2 =>
          rw [hg] at hj2
          have hs : s = ⟨e2.name, e2.book_id, []⟩ :=
            (Option.some.inj hj2).symm
          rw [hs]
          exact hlast j e2 hg hij)
    exact this

/-- Witness for C2: a 2-row book where page `0001` ends with
"HANSEN, Ole" and page `0002` starts with a figure. -/
theorem C2_association_witness :
    associate_portraits_with_names
        [⟨"HANSEN, Ole".data, "digibok_7_0001".data⟩]
        (find_files_starting_with_figures
          [("digibok_7_0002.md".data,
            "![Figure](figures/p77.png)\nmore text".data)]) =
      updateLastMatching
        (initPortraits [⟨"HANSEN, Ole".data, "digibok_7_0001".data⟩])
        ("digibok_7_0001".data) "p77.png".data := by
  have h := C2_figure_first_page_association
    [⟨"HANSEN, Ole".data, "digibok_7_0001".data⟩]
    "![Figure](figures/p77.png)\nmore text".data
    "p77.png".data "7".data "0002".data "\nmore text".data
    (by decide) (by decide) (by decide) (by decide) (by decide) (by decide)
    (by decide) (by decide) (by decide) (by decide)
  exact h.1.trans (by decide)

end MonkeyOCR